import Mathlib

/-!
Verification of the core of `api-schema-differentiator`:
schema inference (`src/core/inferrer.ts`) and schema diffing
(`src/core/differ.ts`, re-packaged in `store.interface.ts`), over a
shallow embedding of the TypeScript data model (`src/core/types.ts`).

Modelling conventions:
- A JS value that may be `undefined` (an absent optional field) is an
  `Option`; the TS `FormatHint` union itself contains `null`, so the
  `format` field is `Option (Option FormatHint)` (`none` = the key is
  absent / `undefined`, `some none` = the JS value `null`).
- A JS `Record<string, T>` / `Map<string, T>` is an insertion-ordered
  association list `List (String × T)`; JS objects never hold a
  duplicate key, so well-formedness hypotheses assume `Nodup` keys
  where the proofs need it.
- JS numbers used as counters (`sampleCount`) are `Nat`; the
  compatibility score is `Int` (it can go negative before clamping).
-/

namespace ASD

/-- The `SchemaType` string union of `src/core/types.ts`. -/
inductive SchemaType where
  | string
  | number
  | boolean
  | null
  | object
  | array
  | unknown
deriving DecidableEq, Repr, Fintype

/-- The non-null members of the `FormatHint` union of `src/core/types.ts`
(`null` itself is represented by the inner `Option` of the `format` field). -/
inductive FormatHint where
  | isoDate
  | isoDatetime
  | uuid
  | email
  | url
  | uri
  | ipv4
  | ipv6
  | unixTimestamp
  | integer
  | float
deriving DecidableEq, Repr, Fintype

/-- The `SchemaNode` interface of `src/core/types.ts`.  Optional fields are
`Option`s; `properties` is an insertion-ordered association list. -/
inductive SchemaNode where
  | mk
    (type : SchemaType)
    (nullable : Bool)
    (format : Option (Option FormatHint))
    (properties : Option (List (String × SchemaNode)))
    (required : Option (List String))
    (items : Option SchemaNode)
    (homogeneous : Option Bool)
    (oneOf : Option (List SchemaNode))
    (sampleCount : Option Nat)

/-- Projection: the `type` field. -/
def SchemaNode.type : SchemaNode → SchemaType
  | .mk t _ _ _ _ _ _ _ _ => t

/-- Projection: the `nullable` field. -/
def SchemaNode.nullable : SchemaNode → Bool
  | .mk _ n _ _ _ _ _ _ _ => n

/-- Projection: the `format` field. -/
def SchemaNode.format : SchemaNode → Option (Option FormatHint)
  | .mk _ _ f _ _ _ _ _ _ => f

/-- Projection: the `properties` field. -/
def SchemaNode.properties : SchemaNode → Option (List (String × SchemaNode))
  | .mk _ _ _ p _ _ _ _ _ => p

/-- Projection: the `required` field. -/
def SchemaNode.required : SchemaNode → Option (List String)
  | .mk _ _ _ _ r _ _ _ _ => r

/-- Projection: the `items` field. -/
def SchemaNode.items : SchemaNode → Option SchemaNode
  | .mk _ _ _ _ _ i _ _ _ => i

/-- Projection: the `homogeneous` field. -/
def SchemaNode.homogeneous : SchemaNode → Option Bool
  | .mk _ _ _ _ _ _ h _ _ => h

/-- Projection: the `oneOf` field. -/
def SchemaNode.oneOf : SchemaNode → Option (List SchemaNode)
  | .mk _ _ _ _ _ _ _ o _ => o

/-- Projection: the `sampleCount` field. -/
def SchemaNode.sampleCount : SchemaNode → Option Nat
  | .mk _ _ _ _ _ _ _ _ s => s

/-- The JS spread update step `\x7b ...n, nullable \x7d`. -/
def SchemaNode.setNullable : SchemaNode → Bool → SchemaNode
  | .mk t _ f p r i h o s, n => .mk t n f p r i h o s

/-- The JS spread update step `\x7b ...n, sampleCount \x7d`. -/
def SchemaNode.setSampleCount : SchemaNode → Option Nat → SchemaNode
  | .mk t n f p r i h o _, s => .mk t n f p r i h o s

/-- Replace the `properties` field of a node (used to compare a node with a
missing `properties` mapping against one with an empty mapping). -/
def SchemaNode.setProperties : SchemaNode → Option (List (String × SchemaNode)) → SchemaNode
  | .mk t n f _ r i h o s, p => .mk t n f p r i h o s

theorem SchemaNode.type_mk (t : SchemaType) (n : Bool) (f : Option (Option FormatHint))
    (p : Option (List (String × SchemaNode))) (r : Option (List String))
    (i : Option SchemaNode) (h : Option Bool) (o : Option (List SchemaNode))
    (s : Option Nat) : (SchemaNode.mk t n f p r i h o s).type = t := rfl

theorem SchemaNode.nullable_mk (t : SchemaType) (n : Bool) (f : Option (Option FormatHint))
    (p : Option (List (String × SchemaNode))) (r : Option (List String))
    (i : Option SchemaNode) (h : Option Bool) (o : Option (List SchemaNode))
    (s : Option Nat) : (SchemaNode.mk t n f p r i h o s).nullable = n := rfl

theorem SchemaNode.format_mk (t : SchemaType) (n : Bool) (f : Option (Option FormatHint))
    (p : Option (List (String × SchemaNode))) (r : Option (List String))
    (i : Option SchemaNode) (h : Option Bool) (o : Option (List SchemaNode))
    (s : Option Nat) : (SchemaNode.mk t n f p r i h o s).format = f := rfl

theorem SchemaNode.properties_mk (t : SchemaType) (n : Bool) (f : Option (Option FormatHint))
    (p : Option (List (String × SchemaNode))) (r : Option (List String))
    (i : Option SchemaNode) (h : Option Bool) (o : Option (List SchemaNode))
    (s : Option Nat) : (SchemaNode.mk t n f p r i h o s).properties = p := rfl

theorem SchemaNode.required_mk (t : SchemaType) (n : Bool) (f : Option (Option FormatHint))
    (p : Option (List (String × SchemaNode))) (r : Option (List String))
    (i : Option SchemaNode) (h : Option Bool) (o : Option (List SchemaNode))
    (s : Option Nat) : (SchemaNode.mk t n f p r i h o s).required = r := rfl

theorem SchemaNode.items_mk (t : SchemaType) (n : Bool) (f : Option (Option FormatHint))
    (p : Option (List (String × SchemaNode))) (r : Option (List String))
    (i : Option SchemaNode) (h : Option Bool) (o : Option (List SchemaNode))
    (s : Option Nat) : (SchemaNode.mk t n f p r i h o s).items = i := rfl

theorem SchemaNode.homogeneous_mk (t : SchemaType) (n : Bool) (f : Option (Option FormatHint))
    (p : Option (List (String × SchemaNode))) (r : Option (List String))
    (i : Option SchemaNode) (h : Option Bool) (o : Option (List SchemaNode))
    (s : Option Nat) : (SchemaNode.mk t n f p r i h o s).homogeneous = h := rfl

theorem SchemaNode.oneOf_mk (t : SchemaType) (n : Bool) (f : Option (Option FormatHint))
    (p : Option (List (String × SchemaNode))) (r : Option (List String))
    (i : Option SchemaNode) (h : Option Bool) (o : Option (List SchemaNode))
    (s : Option Nat) : (SchemaNode.mk t n f p r i h o s).oneOf = o := rfl

theorem SchemaNode.sampleCount_mk (t : SchemaType) (n : Bool) (f : Option (Option FormatHint))
    (p : Option (List (String × SchemaNode))) (r : Option (List String))
    (i : Option SchemaNode) (h : Option Bool) (o : Option (List SchemaNode))
    (s : Option Nat) : (SchemaNode.mk t n f p r i h o s).sampleCount = s := rfl

attribute [simp] SchemaNode.type_mk SchemaNode.nullable_mk SchemaNode.format_mk
  SchemaNode.properties_mk SchemaNode.required_mk SchemaNode.items_mk
  SchemaNode.homogeneous_mk SchemaNode.oneOf_mk SchemaNode.sampleCount_mk

/-- The string each `SchemaType` constructor denotes in the source. -/
def typeStr : SchemaType → String
  | .string => "string"
  | .number => "number"
  | .boolean => "boolean"
  | .null => "null"
  | .object => "object"
  | .array => "array"
  | .unknown => "unknown"

/-- The string each `FormatHint` constructor denotes in the source. -/
def formatHintStr : FormatHint → String
  | .isoDate => "iso-date"
  | .isoDatetime => "iso-datetime"
  | .uuid => "uuid"
  | .email => "email"
  | .url => "url"
  | .uri => "uri"
  | .ipv4 => "ipv4"
  | .ipv6 => "ipv6"
  | .unixTimestamp => "unix-timestamp"
  | .integer => "integer"
  | .float => "float"

/-- The `DriftSeverity` union of `src/core/types.ts`. -/
inductive DriftSeverity where
  | breaking
  | warning
  | info
deriving DecidableEq, Repr

/-- The `DriftType` union of `src/core/types.ts`. -/
inductive DriftType where
  | field_added
  | field_removed
  | type_changed
  | nullable_changed
  | array_items_changed
  | nesting_changed
  | field_renamed
  | format_changed
  | required_changed
  | homogeneity_changed
deriving DecidableEq, Repr

/-- The `DriftChange` interface of `src/core/types.ts`. -/
structure DriftChange where
  type : DriftType
  severity : DriftSeverity
  path : String
  message : String
  before : Option String
  after : Option String
deriving DecidableEq, Repr

/-- The `SEVERITY_MAP` table of the diff engine. -/
def severityMap : DriftType → DriftSeverity
  | .field_added => .info
  | .field_removed => .breaking
  | .type_changed => .breaking
  | .nullable_changed => .warning
  | .array_items_changed => .warning
  | .nesting_changed => .breaking
  | .field_renamed => .warning
  | .format_changed => .info
  | .required_changed => .warning
  | .homogeneity_changed => .warning

/-- The `change` record helper of the diff engine. -/
def change (type : DriftType) (path message : String)
    (before after : Option String) : DriftChange :=
  { type := type, severity := severityMap type, path := path,
    message := message, before := before, after := after }

/-! ### Association-list helpers (JS object / Map semantics) -/

/-- The keys of an association list, in insertion order (`Object.keys`). -/
def keysOf {β : Type} (ps : List (String × β)) : List String :=
  ps.map Prod.fst

/-- The JS `key in obj` test. -/
def containsKey {β : Type} (ps : List (String × β)) (k : String) : Bool :=
  (keysOf ps).contains k

/-- The JS `obj[key]` lookup (first binding wins; JS objects never hold a
duplicate key). -/
def lookupFirst {β : Type} : List (String × β) → String → Option β
  | [], _ => none
  | (k', v) :: rest, k => if k' = k then some v else lookupFirst rest k

/-- The plain unknown node, JS `\x7b type: 'unknown', nullable: false \x7d`. -/
def unknownNode : SchemaNode :=
  .mk .unknown false none none none none none none none

/-- Guarded JS `obj[key]` lookup on schema properties; every use in the
source is behind a `key in obj` test, so the default is unreachable. -/
def jsGet (ps : List (String × SchemaNode)) (k : String) : SchemaNode :=
  (lookupFirst ps k).getD unknownNode

/-- A JS `Set` built from a list: deduplicate, keeping first occurrences. -/
def dedupFirstAux {α : Type} [DecidableEq α] (seen : List α) : List α → List α
  | [] => []
  | x :: xs =>
    if x ∈ seen then dedupFirstAux seen xs
    else x :: dedupFirstAux (x :: seen) xs

/-- Deduplicate a list keeping first occurrences (JS `Set` insertion order). -/
def dedupFirst {α : Type} [DecidableEq α] (l : List α) : List α :=
  dedupFirstAux [] l

/-- The JS `node.properties || \x7b\x7d` read. -/
def jsProps (n : SchemaNode) : List (String × SchemaNode) :=
  n.properties.getD []

/-- The JS `node.required || []` read. -/
def jsRequired (n : SchemaNode) : List String :=
  n.required.getD []

/-- The JS `node.sampleCount || 1` read (`0` is falsy). -/
def jsOr1 : Option Nat → Nat
  | none => 1
  | some 0 => 1
  | some (n + 1) => n + 1

/-- The JS `path || '(root)'` display label. -/
def rootLabel (path : String) : String :=
  if path = "" then "(root)" else path

/-- The JS dotted path builder `path ? path + "." + key : key`. -/
def joinPath (path key : String) : String :=
  if path = "" then key else path ++ "." ++ key

/-! ### Size lemmas used for termination of the recursive engines -/

theorem lookupFirst_mem {β : Type} (ps : List (String × β)) (k : String) (v : β)
    (h : lookupFirst ps k = some v) : (k, v) ∈ ps := by
  induction ps with
  | nil => simp [lookupFirst] at h
  | cons hd tl ih =>
    obtain ⟨k', v'⟩ := hd
    by_cases hk : k' = k
    · subst hk
      simp [lookupFirst] at h
      simp [h]
    · simp [lookupFirst, hk] at h
      exact List.mem_cons_of_mem _ (ih h)

theorem containsKey_lookup {β : Type} (ps : List (String × β)) (k : String)
    (h : containsKey ps k = true) : ∃ v, lookupFirst ps k = some v := by
  induction ps with
  | nil => simp [containsKey, keysOf] at h
  | cons hd tl ih =>
    obtain ⟨k', v'⟩ := hd
    by_cases hk : k' = k
    · exact ⟨v', by simp [lookupFirst, hk]⟩
    · simp [containsKey, keysOf, hk] at h
      rcases h with h | h
      · exact absurd h.symm hk
      · simpa [lookupFirst, hk] using ih (by simp [containsKey, keysOf, h])

theorem sizeOf_lookupFirst_lt (ps : List (String × SchemaNode)) (k : String)
    (v : SchemaNode) (h : lookupFirst ps k = some v) : sizeOf v < sizeOf ps := by
  have hm := lookupFirst_mem ps k v h
  have h1 : sizeOf (k, v) < sizeOf ps := List.sizeOf_lt_of_mem hm
  simp at h1
  omega

theorem sizeOf_properties_lt (n : SchemaNode) (ps : List (String × SchemaNode))
    (h : n.properties = some ps) : sizeOf ps < sizeOf n := by
  cases n with
  | mk t nb f p r i hm o s =>
    simp [SchemaNode.properties] at h
    subst h
    simp
    omega

theorem sizeOf_jsProps_lt (n : SchemaNode) : sizeOf (jsProps n) < sizeOf n := by
  cases n with
  | mk t nb f p r i hm o s =>
    cases p with
    | none => simp [jsProps, SchemaNode.properties]; omega
    | some ps => simp [jsProps, SchemaNode.properties]; omega

theorem sizeOf_jsGet_lt (n : SchemaNode) (k : String)
    (h : containsKey (jsProps n) k = true) : sizeOf (jsGet (jsProps n) k) < sizeOf n := by
  obtain ⟨v, hv⟩ := containsKey_lookup _ _ h
  have h1 : sizeOf v < sizeOf (jsProps n) := sizeOf_lookupFirst_lt _ _ _ hv
  have h2 : sizeOf (jsProps n) < sizeOf n := sizeOf_jsProps_lt n
  rw [jsGet, hv]
  simp
  omega

theorem sizeOf_jsGet_props_lt (ps : List (String × SchemaNode)) (k : String)
    (h : containsKey ps k = true) : sizeOf (jsGet ps k) < sizeOf ps := by
  obtain ⟨v, hv⟩ := containsKey_lookup _ _ h
  have h1 := sizeOf_lookupFirst_lt _ _ _ hv
  rw [jsGet, hv]
  simp
  omega

theorem sizeOf_items_lt (n : SchemaNode) (i : SchemaNode)
    (h : n.items = some i) : sizeOf i < sizeOf n := by
  cases n with
  | mk t nb f p r it hm o s =>
    simp [SchemaNode.items] at h
    subst h
    simp
    omega

theorem sizeOf_oneOf_lt (n : SchemaNode) (l : List SchemaNode) (x : SchemaNode)
    (h : n.oneOf = some l) (hx : x ∈ l) : sizeOf x < sizeOf n := by
  have h1 : sizeOf x < sizeOf l := List.sizeOf_lt_of_mem hx
  cases n with
  | mk t nb f p r i hm o s =>
    simp [SchemaNode.oneOf] at h
    subst h
    simp
    omega

theorem sizeOf_oneOfList_lt (n : SchemaNode) (l : List SchemaNode)
    (h : n.oneOf = some l) : sizeOf l < sizeOf n := by
  cases n with
  | mk t nb f p r i hm o s =>
    simp [SchemaNode.oneOf] at h
    subst h
    simp
    omega

theorem sizeOf_props_pair_lt (n : SchemaNode) (ps : List (String × SchemaNode))
    (k : String) (v : SchemaNode) (h : n.properties = some ps) (hm : (k, v) ∈ ps) :
    sizeOf v < sizeOf n := by
  have h1 : sizeOf (k, v) < sizeOf ps := List.sizeOf_lt_of_mem hm
  have h2 : sizeOf ps < sizeOf n := sizeOf_properties_lt n ps h
  simp at h1
  omega

/-! ### The `typeLabel` pretty-printer of the diff engine -/

mutual

/-- The hand-rolled `node.oneOf.map(typeLabel)` used by `typeLabel`. -/
def typeLabelList : List SchemaNode → List String
  | [] => []
  | x :: rest => typeLabel x :: typeLabelList rest
termination_by l => sizeOf l

/-- `typeLabel` from the diff engine: a node's kind annotated with its format
hint in angle brackets, the item label for arrays, and
`oneOf(l1, l2, ...)` for union nodes. -/
def typeLabel (node : SchemaNode) : String :=
  match h : node.oneOf with
  | some l =>
    "oneOf(" ++ String.intercalate ", " (typeLabelList l) ++ ")"
  | none =>
    let label := typeStr node.type
    let label := match node.format with
      | some (some f) => label ++ "<" ++ formatHintStr f ++ ">"
      | _ => label
    if node.type = .array then
      match h2 : node.items with
      | some i => label ++ "<" ++ typeLabel i ++ ">"
      | none => label
    else label
termination_by sizeOf node
decreasing_by
  · have h1 : sizeOf l < sizeOf node := by
      cases node with
      | mk t nb f p r i hh o sc =>
        simp [SchemaNode.oneOf] at h
        subst h
        simp
        omega
    omega
  · exact sizeOf_items_lt node i h2

end

/-! ### The merge engine (`mergeSchemas`, multi-sample learning) -/

/-- The union node `createUnionSchema [a, b]` produces when the two nodes
have distinct non-null kinds (its two type-map groups never collide, so no
recursive merging happens); `createUnionSchema_pair` below proves this
inlining of the different-kinds branch of `mergeSchemas` faithful. -/
def unionOfPair (a b : SchemaNode) (sampleCount : Nat) : SchemaNode :=
  .mk .unknown false none none none none none (some [a, b]) (some sampleCount)

mutual

/-- `mergeSchemas` from `src/core/inferrer.ts`: merge two schemas to learn
from multiple samples.  The different-kinds branch of the source calls
`createUnionSchema([a, b])`; it is inlined here as `unionOfPair` (see its
doc comment and `createUnionSchema_pair`). -/
def mergeSchemas (a b : SchemaNode) : SchemaNode :=
  if a.type = .null ∧ b.type = .null then
    .mk .null true none none none none none none
      (some (jsOr1 a.sampleCount + jsOr1 b.sampleCount))
  else if a.type = .null then
    (b.setNullable true).setSampleCount (some (jsOr1 a.sampleCount + jsOr1 b.sampleCount))
  else if b.type = .null then
    (a.setNullable true).setSampleCount (some (jsOr1 a.sampleCount + jsOr1 b.sampleCount))
  else if a.type = .unknown then
    b.setSampleCount (some (jsOr1 a.sampleCount + jsOr1 b.sampleCount))
  else if b.type = .unknown then
    a.setSampleCount (some (jsOr1 a.sampleCount + jsOr1 b.sampleCount))
  else if a.type ≠ b.type then
    unionOfPair a b (jsOr1 a.sampleCount + jsOr1 b.sampleCount)
  else
    match a.type with
    | .string | .number | .boolean =>
      .mk a.type (a.nullable || b.nullable)
        (if a.format = b.format then a.format else some none)
        none none none none none (some (jsOr1 a.sampleCount + jsOr1 b.sampleCount))
    | .array =>
      let items :=
        match ha : a.items, hb : b.items with
        | some ia, some ib => mergeSchemas ia ib
        | some ia, none => ia
        | none, some ib => ib
        | none, none => unknownNode
      .mk .array (a.nullable || b.nullable) none none none (some items)
        (some ((a.homogeneous.getD true) && (b.homogeneous.getD true)
          && decide (items.type ≠ .unknown)))
        none (some (jsOr1 a.sampleCount + jsOr1 b.sampleCount))
    | .object => mergeObjectSchemas a b (jsOr1 a.sampleCount + jsOr1 b.sampleCount)
    | .null | .unknown =>
      .mk a.type (a.nullable || b.nullable) none none none none none none
        (some (jsOr1 a.sampleCount + jsOr1 b.sampleCount))
termination_by (sizeOf a + sizeOf b, 1)
decreasing_by
  · apply Prod.Lex.left
    have h1 := sizeOf_items_lt a ia ha
    have h2 := sizeOf_items_lt b ib hb
    omega
  · apply Prod.Lex.right
    omega

/-- `mergeObjectSchemas` from `src/core/inferrer.ts`: union of keys, shared
keys merged recursively, a key required only when required in both inputs.
The source's single loop over `allKeys` pushing into `properties` and
`required` is rendered as a `map` and a `filter` over the same key list. -/
def mergeObjectSchemas (a b : SchemaNode) (sampleCount : Nat) : SchemaNode :=
  .mk .object (a.nullable || b.nullable) none
    (some ((dedupFirst (keysOf (jsProps a) ++ keysOf (jsProps b))).map (fun key =>
      (key,
        if h : containsKey (jsProps a) key = true ∧ containsKey (jsProps b) key = true then
          mergeSchemas (jsGet (jsProps a) key) (jsGet (jsProps b) key)
        else if containsKey (jsProps a) key then jsGet (jsProps a) key
        else jsGet (jsProps b) key))))
    (some ((dedupFirst (keysOf (jsProps a) ++ keysOf (jsProps b))).filter (fun key =>
      containsKey (jsProps a) key && containsKey (jsProps b) key
        && (jsRequired a).contains key && (jsRequired b).contains key)))
    none none none (some sampleCount)
termination_by (sizeOf a + sizeOf b, 0)
decreasing_by
  apply Prod.Lex.left
  have h1 := sizeOf_jsGet_lt a key h.1
  have h2 := sizeOf_jsGet_lt b key h.2
  omega

end

/-- The grouping key of `createUnionSchema`'s type map:
`schema.type + (schema.format ? ':' + schema.format : '')`. -/
def typeMapKey (schema : SchemaNode) : String :=
  typeStr schema.type ++ (match schema.format with
    | some (some f) => ":" ++ formatHintStr f
    | _ => "")

/-- JS `Map.prototype.set`: replace the value of an existing key in place,
else append the new entry (insertion order preserved). -/
def mapSet (m : List (String × SchemaNode)) (k : String) (v : SchemaNode) :
    List (String × SchemaNode) :=
  match m with
  | [] => [(k, v)]
  | (k', v') :: rest => if k' = k then (k, v) :: rest else (k', v') :: mapSet rest k v

/-- `createUnionSchema` from `src/core/inferrer.ts`: drop null entries
(recording nullable), group the rest by `(kind, format)` merging duplicates,
collapse to a single node when one group remains, else build a union node. -/
def createUnionSchema (schemas : List SchemaNode) : SchemaNode :=
  let folded := schemas.foldl (fun (acc : List (String × SchemaNode) × Bool) schema =>
    if schema.type = .null then (acc.1, true)
    else if containsKey acc.1 (typeMapKey schema) then
      (mapSet acc.1 (typeMapKey schema)
        (mergeSchemas (jsGet acc.1 (typeMapKey schema)) schema), acc.2)
    else (acc.1 ++ [(typeMapKey schema, schema)], acc.2)) ([], false)
  if (folded.1.map Prod.snd).length = 1 then
    ((folded.1.map Prod.snd).headD unknownNode).setNullable folded.2
  else
    .mk .unknown folded.2 none none none none none (some (folded.1.map Prod.snd))
      (some (schemas.foldl (fun sum s => sum + jsOr1 s.sampleCount) 0))

/-- Two nodes of different kinds always land in different groups of the type
map: the seven kind names pairwise differ and contain no `:`, so the map key
determines the kind. -/
theorem typeMapKey_ne_of_type_ne (a b : SchemaNode) (h : a.type ≠ b.type) :
    typeMapKey a ≠ typeMapKey b := by
  rw [typeMapKey, typeMapKey]
  revert h
  generalize a.type = t1
  generalize b.type = t2
  generalize a.format = f1
  generalize b.format = f2
  revert t1 t2 f1 f2
  decide

/-- Faithfulness of the `unionOfPair` inlining inside `mergeSchemas`: on two
nodes of distinct non-null kinds, `createUnionSchema [a, b]` builds exactly
the two-member union node with nullable `false` and the summed sample count. -/
theorem createUnionSchema_pair (a b : SchemaNode) (hab : a.type ≠ b.type)
    (ha : a.type ≠ .null) (hb : b.type ≠ .null) :
    createUnionSchema [a, b] = unionOfPair a b (jsOr1 a.sampleCount + jsOr1 b.sampleCount) := by
  have hk := typeMapKey_ne_of_type_ne b a (Ne.symm hab)
  rw [createUnionSchema, unionOfPair]
  simp [ha, hb, containsKey, keysOf, hk]

/-! ### Format detection (`FORMAT_PATTERNS` of `src/core/inferrer.ts`)

Each anchored regular expression is rendered as an executable matcher over
the character list of the candidate string. -/

/-- Character class `\d`. -/
def isDigitCh (c : Char) : Bool := '0' ≤ c && c ≤ '9'

/-- Character class `[0-9a-fA-F]`. -/
def isHexCh (c : Char) : Bool :=
  isDigitCh c || ('a' ≤ c && c ≤ 'f') || ('A' ≤ c && c ≤ 'F')

/-- Character class `[a-zA-Z]`. -/
def isAlphaCh (c : Char) : Bool :=
  ('a' ≤ c && c ≤ 'z') || ('A' ≤ c && c ≤ 'Z')

/-- The JS regex whitespace class `\s`. -/
def isJsSpace (c : Char) : Bool :=
  c = ' ' || c = '\t' || c = '\n' || c = (Char.ofNat 0x0B) || c = (Char.ofNat 0x0C)
    || c = '\r' || c = (Char.ofNat 0xA0) || c = (Char.ofNat 0x1680)
    || ((Char.ofNat 0x2000) ≤ c && c ≤ (Char.ofNat 0x200A))
    || c = (Char.ofNat 0x2028) || c = (Char.ofNat 0x2029) || c = (Char.ofNat 0x202F)
    || c = (Char.ofNat 0x205F) || c = (Char.ofNat 0x3000) || c = (Char.ofNat 0xFEFF)

/-- JS line terminators, the characters the regex `.` does not match. -/
def isLineTerm (c : Char) : Bool :=
  c = '\n' || c = '\r' || c = (Char.ofNat 0x2028) || c = (Char.ofNat 0x2029)

/-- Pattern `^\d{4}-\d{2}-\d{2}$` (`iso-date`). -/
def matchIsoDate : List Char → Bool
  | [y1, y2, y3, y4, '-', m1, m2, '-', d1, d2] =>
    [y1, y2, y3, y4, m1, m2, d1, d2].all isDigitCh
  | _ => false

/-- Tail pattern `(Z|[+-]\d{2}:?\d{2})?$` of the datetime regex. -/
def matchTzTail : List Char → Bool
  | [] => true
  | ['Z'] => true
  | ['+', a, b, c, d] => [a, b, c, d].all isDigitCh
  | ['-', a, b, c, d] => [a, b, c, d].all isDigitCh
  | ['+', a, b, ':', c, d] => [a, b, c, d].all isDigitCh
  | ['-', a, b, ':', c, d] => [a, b, c, d].all isDigitCh
  | _ => false

/-- Tail pattern `(\.\d+)?(Z|[+-]\d{2}:?\d{2})?$` of the datetime regex
(the fraction's digits are maximal since no timezone alternative starts
with a digit). -/
def matchFracTzTail : List Char → Bool
  | '.' :: rest =>
    rest.takeWhile isDigitCh ≠ [] && matchTzTail (rest.dropWhile isDigitCh)
  | cs => matchTzTail cs

/-- Pattern `^\d{4}-\d{2}-\d{2}T\d{2}:\d{2}:\d{2}(\.\d+)?(Z|[+-]\d{2}:?\d{2})?$`
(`iso-datetime`). -/
def matchIsoDatetime : List Char → Bool
  | y1 :: y2 :: y3 :: y4 :: '-' :: m1 :: m2 :: '-' :: d1 :: d2 :: 'T'
      :: h1 :: h2 :: ':' :: mi1 :: mi2 :: ':' :: s1 :: s2 :: rest =>
    [y1, y2, y3, y4, m1, m2, d1, d2, h1, h2, mi1, mi2, s1, s2].all isDigitCh
      && matchFracTzTail rest
  | _ => false

/-- Pattern `^[0-9a-f]{8}-[0-9a-f]{4}-[0-9a-f]{4}-[0-9a-f]{4}-[0-9a-f]{12}$/i`
(`uuid`); hex groups contain no `-`, so the dash positions split the string. -/
def matchUuid (cs : List Char) : Bool :=
  match cs.splitOn '-' with
  | [g1, g2, g3, g4, g5] =>
    g1.length = 8 && g2.length = 4 && g3.length = 4 && g4.length = 4
      && g5.length = 12 && (g1 ++ g2 ++ g3 ++ g4 ++ g5).all isHexCh
  | _ => false

/-- Character class `[a-zA-Z0-9._%+-]` of the email local part. -/
def isEmailLocalCh (c : Char) : Bool :=
  isAlphaCh c || isDigitCh c || c = '.' || c = '_' || c = '%' || c = '+' || c = '-'

/-- Character class `[a-zA-Z0-9.-]` of the email domain part. -/
def isEmailDomainCh (c : Char) : Bool :=
  isAlphaCh c || isDigitCh c || c = '.' || c = '-'

/-- Split a character list at its last `.`, if any. -/
def lastSplitDot (cs : List Char) : Option (List Char × List Char) :=
  if '.' ∈ cs then
    some ((((cs.reverse.dropWhile (· ≠ '.')).drop 1).reverse),
      (cs.reverse.takeWhile (· ≠ '.')).reverse)
  else none

/-- Pattern `^[a-zA-Z0-9._%+-]+@[a-zA-Z0-9.-]+\.[a-zA-Z]{2,}$` (`email`);
neither class contains `@`, and the top-level label is alphabetic, so the
matched dot is the last dot of the domain. -/
def matchEmail (cs : List Char) : Bool :=
  match cs.splitOn '@' with
  | [loc, dom] =>
    loc ≠ [] && loc.all isEmailLocalCh &&
    (match lastSplitDot dom with
     | some (x, y) =>
       x ≠ [] && x.all isEmailDomainCh && y.length ≥ 2 && y.all isAlphaCh
     | none => false)
  | _ => false

/-- Tail `[^\s/$.?#].[^\s]*$` of the url pattern (after the scheme). -/
def urlTail : List Char → Bool
  | c1 :: c2 :: rest =>
    !isJsSpace c1 && c1 ≠ '/' && c1 ≠ '$' && c1 ≠ '.' && c1 ≠ '?' && c1 ≠ '#'
      && !isLineTerm c2 && rest.all (fun c => !isJsSpace c)
  | _ => false

/-- Pattern `^https?:\/\/[^\s/$.?#].[^\s]*$` (`url`). -/
def matchUrl : List Char → Bool
  | 'h' :: 't' :: 't' :: 'p' :: rest =>
    (match rest with
     | 's' :: ':' :: '/' :: '/' :: r2 => urlTail r2
     | ':' :: '/' :: '/' :: r2 => urlTail r2
     | _ => false)
  | _ => false

/-- Pattern `^(\d{1,3}\.){3}\d{1,3}$` (`ipv4`); digit groups contain no `.`,
so the dots split the string into exactly four groups. -/
def matchIpv4 (cs : List Char) : Bool :=
  match cs.splitOn '.' with
  | [a, b, c, d] =>
    [a, b, c, d].all (fun p => 1 ≤ p.length && p.length ≤ 3 && p.all isDigitCh)
  | _ => false

/-- Pattern `^([0-9a-fA-F]{1,4}:){7}[0-9a-fA-F]{1,4}$` (`ipv6`). -/
def matchIpv6 (cs : List Char) : Bool :=
  match cs.splitOn ':' with
  | [a, b, c, d, e, f, g, h] =>
    [a, b, c, d, e, f, g, h].all (fun p => 1 ≤ p.length && p.length ≤ 4 && p.all isHexCh)
  | _ => false

/-- `detectFormat` from `src/core/inferrer.ts`: first matching pattern in
the fixed priority order, else the JS `null` (here `none`). -/
def detectFormat (value : String) : Option FormatHint :=
  if matchIsoDatetime value.toList then some .isoDatetime
  else if matchIsoDate value.toList then some .isoDate
  else if matchUuid value.toList then some .uuid
  else if matchEmail value.toList then some .email
  else if matchUrl value.toList then some .url
  else if matchIpv4 value.toList then some .ipv4
  else if matchIpv6 value.toList then some .ipv6
  else none

/-- `detectNumberFormat`: `integer` when `Number.isInteger(value)`, else
`float` (see the `Json.num` doc comment). -/
def detectNumberFormat (isInteger : Bool) : Option FormatHint :=
  if isInteger then some .integer else some .float

/-! ### JSON-like values and the inference engine -/

/-- A JS value as consumed by `inferSchema`.  JS numbers are IEEE doubles;
the only property of a number the engine reads is `Number.isInteger(value)`
(for the integer/float hint), so a number is modeled by that Boolean.
`undef` is the `undefined` sentinel (`detectType` maps it to `unknown`);
object fields are an insertion-ordered association list. -/
inductive Json where
  | null
  | str (s : String)
  | num (isInteger : Bool)
  | bool (b : Bool)
  | arr (elems : List Json)
  | obj (fields : List (String × Json))
  | undef

/-- `detectType` from `src/core/inferrer.ts`. -/
def detectType : Json → SchemaType
  | .null => .null
  | .undef => .unknown
  | .arr _ => .array
  | .str _ => .string
  | .num _ => .number
  | .bool _ => .boolean
  | .obj _ => .object

mutual

/-- `inferSchema` from `src/core/inferrer.ts`: infer a `SchemaNode` from a
single value; the `switch (detectType value)` dispatch is rendered as the
match on the `Json` constructors (each case corresponds to one kind, the
`default` case to `undef`). -/
def inferSchema (value : Json) : SchemaNode :=
  match value with
  | .null => .mk .null true none none none none none none (some 1)
  | .str s => .mk .string false (some (detectFormat s)) none none none none none (some 1)
  | .num isInt =>
    .mk .number false (some (detectNumberFormat isInt)) none none none none none (some 1)
  | .bool _ => .mk .boolean false none none none none none none (some 1)
  | .arr xs => inferArraySchema xs
  | .obj fields => inferObjectSchema fields
  | .undef => .mk .unknown false none none none none none none (some 1)
termination_by (sizeOf value, 0)
decreasing_by
  all_goals first
    | (apply Prod.Lex.right; omega)
    | (apply Prod.Lex.left <;> (try simp) <;> omega)

/-- The hand-rolled `arr.map(inferSchema)` of `inferArraySchema`. -/
def inferList : List Json → List SchemaNode
  | [] => []
  | x :: rest => inferSchema x :: inferList rest
termination_by l => (sizeOf l, 0)
decreasing_by
  all_goals first
    | (apply Prod.Lex.right; omega)
    | (apply Prod.Lex.left <;> (try simp) <;> omega)

/-- `inferArraySchema`: infer each element, check kind homogeneity, and
either fold the element schemas with `mergeSchemas` or build a union. -/
def inferArraySchema (arr : List Json) : SchemaNode :=
  if arr.length = 0 then
    .mk .array false none none none (some unknownNode) (some true) none (some 1)
  else
    let itemSchemas := inferList arr
    let homogeneous := (dedupFirst (itemSchemas.map SchemaNode.type)).length == 1
    let mergedItems :=
      if homogeneous then
        match itemSchemas with
        | [] => unknownNode
        | x :: xs => xs.foldl mergeSchemas x
      else createUnionSchema itemSchemas
    .mk .array false none none none (some mergedItems) (some homogeneous) none (some 1)
termination_by (sizeOf arr, 1)
decreasing_by
  all_goals first
    | (apply Prod.Lex.right; omega)
    | (apply Prod.Lex.left <;> (try simp) <;> omega)

/-- The hand-rolled per-field recursion of `inferObjectSchema` (infer each
field value, keyed by field name). -/
def inferPairs : List (String × Json) → List (String × SchemaNode)
  | [] => []
  | (k, v) :: rest => (k, inferSchema v) :: inferPairs rest
termination_by l => (sizeOf l, 0)
decreasing_by
  all_goals first
    | (apply Prod.Lex.right; omega)
    | (apply Prod.Lex.left <;> (try simp) <;> omega)

/-- `inferObjectSchema`: infer every field recursively; on a single sample
every present key is required. -/
def inferObjectSchema (fields : List (String × Json)) : SchemaNode :=
  .mk .object false none
    (some (inferPairs fields))
    (some (fields.map Prod.fst))
    none none none (some 1)
termination_by (sizeOf fields, 1)
decreasing_by
  all_goals first
    | (apply Prod.Lex.right; omega)
    | (apply Prod.Lex.left <;> (try simp) <;> omega)

end

/-! ### Rename heuristic (`detectRenames`, `isSimilarName`, `levenshtein`) -/

/-- One row-extension step of the source's Levenshtein DP table: given
`dp[i-1][j-1]` (`diag`), the tail `dp[i-1][j..]` (`prev`) and `dp[i][j-1]`
(`left`), produce `dp[i][j..]`. -/
def levGo (ca : Char) : List Char → List Nat → Nat → Nat → List Nat
  | [], _, _, _ => []
  | cb :: bs, prev, diag, left =>
    let cur := if ca = cb then diag else 1 + min (prev.headD 0) (min left diag)
    cur :: levGo ca bs (prev.drop 1) (prev.headD 0) cur

/-- Fold the DP rows of the source's `levenshtein` (row `i` starts with
`dp[i][0] = i`). -/
def levRows (bs : List Char) : List Char → List Nat → Nat → List Nat
  | [], prev, _ => prev
  | ca :: as, prev, i =>
    levRows bs as ((i + 1) :: levGo ca bs (prev.drop 1) (prev.headD 0) (i + 1)) (i + 1)

/-- `levenshtein` from the diff engine: the edit-distance DP table, row by
row; the answer is `dp[m][n]`, the last entry of the final row. -/
def levenshtein (a b : String) : Nat :=
  (levRows b.toList a.toList (List.range (b.toList.length + 1)) 0).getLastD 0

/-- The global replace `([a-z])([A-Z])` with `$1_$2`: insert `_` at each
lower-to-upper camel boundary, scanning left to right past each match. -/
def camelSplit : List Char → List Char
  | c1 :: c2 :: rest =>
    if ('a' ≤ c1 && c1 ≤ 'z') && ('A' ≤ c2 && c2 ≤ 'Z') then
      c1 :: '_' :: c2 :: camelSplit rest
    else c1 :: camelSplit (c2 :: rest)
  | l => l

/-- The JS `String.prototype.toLowerCase` call, as a character-wise map
(ASCII-faithful; the engine compares plain field names). -/
def jsToLower (s : String) : String :=
  String.mk (s.toList.map Char.toLower)

/-- The `normalize` helper of `isSimilarName`: split camel boundaries,
lower-case, strip `_` and `-`. -/
def normalizeName (s : String) : String :=
  String.mk (((camelSplit s.toList).map Char.toLower).filter (fun c => c ≠ '_' && c ≠ '-'))

/-- `isSimilarName` from the diff engine: pluralization, case-style
equivalence, or bounded edit distance for short names. -/
def isSimilarName (a b : String) : Bool :=
  (jsToLower a ++ "s" == jsToLower b) || (jsToLower b ++ "s" == jsToLower a)
  || (jsToLower a ++ "es" == jsToLower b) || (jsToLower b ++ "es" == jsToLower a)
  || (normalizeName a == normalizeName b)
  || (a.length ≤ 8 && b.length ≤ 8 && levenshtein (jsToLower a) (jsToLower b) ≤ 2)

/-- The inner loop of `detectRenames`: scan the added fields in order and
return the first eligible, unclaimed match for the removed field `rKey`. -/
def findRenameMatch (rKey : String) (rSchema : SchemaNode)
    (matchedAdded : List String) : List (String × SchemaNode) → Option String
  | [] => none
  | (aKey, aSchema) :: rest =>
    if matchedAdded.contains aKey then findRenameMatch rKey rSchema matchedAdded rest
    else if rSchema.type = aSchema.type && isSimilarName rKey aKey then some aKey
    else findRenameMatch rKey rSchema matchedAdded rest

/-- The outer loop of `detectRenames`, carrying the `matchedAdded` claim
set (the source's `matchedRemoved` set is written but never read, because
`break` already moves to the next removed field). -/
def detectRenamesGo (added : List (String × SchemaNode)) (basePath : String) :
    List (String × SchemaNode) → List String → List DriftChange
  | [], _ => []
  | (rKey, rSchema) :: rest, matchedAdded =>
    match findRenameMatch rKey rSchema matchedAdded added with
    | some aKey =>
      change .field_renamed (joinPath basePath rKey)
        ("Field possibly renamed: \"" ++ rKey ++ "\" → \"" ++ aKey ++ "\"")
        (some rKey) (some aKey)
        :: detectRenamesGo added basePath rest (matchedAdded ++ [aKey])
    | none => detectRenamesGo added basePath rest matchedAdded

/-- `detectRenames` from the diff engine: greedy first-match-wins pairing
of removed and added fields of similar name and equal kind. -/
def detectRenames (removed added : List (String × SchemaNode))
    (basePath : String) : List DriftChange :=
  detectRenamesGo added basePath removed []

/-! ### The diff engine (`diffSchemas`) -/

/-- The JS `node.format || 'none'` display label. -/
def formatLabel (f : Option (Option FormatHint)) : String :=
  match f with
  | some (some h) => formatHintStr h
  | _ => "none"

/-- The JS `nullable ? 'nullable' : 'non-null'` display label. -/
def nullLabel (b : Bool) : String := if b then "nullable" else "non-null"

/-- The JS `homogeneous ? 'homogeneous' : 'mixed'` display label. -/
def homLabel (b : Bool) : String := if b then "homogeneous" else "mixed"

/-- The array item path `path ? path + "[]" : "[]"`. -/
def itemsPath (path : String) : String :=
  if path = "" then "[]" else path ++ "[]"

/-- The `removedFields` map of `diffSchemas`: keys of `before` missing from
`after`, with their schemas, in key order. -/
def removedFieldsOf (beforeProps afterProps : List (String × SchemaNode)) :
    List (String × SchemaNode) :=
  (dedupFirst (keysOf beforeProps)).filterMap (fun key =>
    if containsKey afterProps key then none else some (key, jsGet beforeProps key))

/-- The `addedFields` map of `diffSchemas`: keys of `after` missing from
`before`, with their schemas, in key order. -/
def addedFieldsOf (beforeProps afterProps : List (String × SchemaNode)) :
    List (String × SchemaNode) :=
  (dedupFirst (keysOf afterProps)).filterMap (fun key =>
    if containsKey beforeProps key then none else some (key, jsGet afterProps key))

/-- The `field_removed` changes of one object level: removed fields not
claimed by a rename pair. -/
def removalChangesOf (removedFields : List (String × SchemaNode))
    (renamedBefore : List String) (path : String) : List DriftChange :=
  removedFields.filterMap (fun kv =>
    if renamedBefore.contains kv.1 then none
    else some (change .field_removed (joinPath path kv.1)
      ("Field removed: \"" ++ joinPath path kv.1 ++ "\" (was: " ++ typeLabel kv.2 ++ ")")
      (some (typeLabel kv.2)) none))

/-- The `field_added` changes of one object level: added fields not claimed
by a rename pair. -/
def additionChangesOf (addedFields : List (String × SchemaNode))
    (renamedAfter : List String) (path : String) : List DriftChange :=
  addedFields.filterMap (fun kv =>
    if renamedAfter.contains kv.1 then none
    else some (change .field_added (joinPath path kv.1)
      ("Field added: \"" ++ joinPath path kv.1 ++ "\" (" ++ typeLabel kv.2 ++ ")")
      none (some (typeLabel kv.2))))

/-- The `nullable_changed` part of one diff level. -/
def nullableChangesOf (before after : SchemaNode) (path : String) : List DriftChange :=
  if before.nullable ≠ after.nullable then
    [change .nullable_changed (rootLabel path)
      ("Nullable changed at \"" ++ rootLabel path ++ "\" (" ++ nullLabel before.nullable
        ++ " → " ++ nullLabel after.nullable ++ ")")
      (some (nullLabel before.nullable)) (some (nullLabel after.nullable))]
  else []

/-- The `format_changed` part of one diff level. -/
def formatChangesOf (before after : SchemaNode) (path : String) : List DriftChange :=
  if before.format ≠ after.format then
    [change .format_changed (rootLabel path)
      ("Format changed at \"" ++ rootLabel path ++ "\" (" ++ formatLabel before.format
        ++ " → " ++ formatLabel after.format ++ ")")
      (some (formatLabel before.format)) (some (formatLabel after.format))]
  else []

/-- The `required_changed` part of one object level: required-to-optional
flips, then optional-to-required flips, both over keys present on both
sides. -/
def requiredChangesOf (before after : SchemaNode) (path : String) : List DriftChange :=
  ((dedupFirst (jsRequired before)).filterMap (fun key =>
    if containsKey (jsProps after) key && !((jsRequired after).contains key) then
      some (change .required_changed (joinPath path key)
        ("Field \"" ++ joinPath path key ++ "\" changed from required to optional")
        (some "required") (some "optional"))
    else none))
  ++ ((dedupFirst (jsRequired after)).filterMap (fun key =>
    if containsKey (jsProps before) key && !((jsRequired before).contains key) then
      some (change .required_changed (joinPath path key)
        ("Field \"" ++ joinPath path key ++ "\" changed from optional to required")
        (some "optional") (some "required"))
    else none))

/-- The `homogeneity_changed` part of one array level (only when both sides
carry the flag). -/
def homogeneityChangesOf (before after : SchemaNode) (path : String) : List DriftChange :=
  match before.homogeneous, after.homogeneous with
  | some hb, some ha =>
    if hb ≠ ha then
      [change .homogeneity_changed (rootLabel path)
        ("Array homogeneity changed at \"" ++ rootLabel path ++ "\" (" ++ homLabel hb
          ++ " → " ++ homLabel ha ++ ")")
        (some (homLabel hb)) (some (homLabel ha))]
    else []
  | _, _ => []

/-- Membership in `dedupFirstAux`. -/
theorem mem_dedupFirstAux {α : Type} [DecidableEq α] (l : List α) (x : α) :
    ∀ seen, x ∈ dedupFirstAux seen l ↔ x ∈ l ∧ x ∉ seen := by
  induction l with
  | nil => intro seen; simp [dedupFirstAux]
  | cons hd tl ih =>
    intro seen
    by_cases hm : hd ∈ seen
    · rw [dedupFirstAux, if_pos hm, ih]
      constructor
      · rintro ⟨h1, h2⟩
        exact ⟨List.mem_cons_of_mem _ h1, h2⟩
      · rintro ⟨h1, h2⟩
        rcases List.mem_cons.mp h1 with h1 | h1
        · exact absurd (h1 ▸ hm) h2
        · exact ⟨h1, h2⟩
    · rw [dedupFirstAux, if_neg hm]
      simp only [List.mem_cons, ih]
      constructor
      · rintro (h1 | ⟨h1, h2⟩)
        · exact ⟨Or.inl h1, h1 ▸ hm⟩
        · exact ⟨Or.inr h1, fun hc => h2 (Or.inr hc)⟩
      · rintro ⟨h1 | h1, h2⟩
        · exact Or.inl h1
        · by_cases hx : x = hd
          · exact Or.inl hx
          · exact Or.inr ⟨h1, by simp [hx, h2]⟩

/-- Membership in `dedupFirst`. -/
theorem mem_dedupFirst {α : Type} [DecidableEq α] (l : List α) (x : α) :
    x ∈ dedupFirst l ↔ x ∈ l := by
  rw [dedupFirst, mem_dedupFirstAux]
  simp

/-- Keys membership gives `containsKey`. -/
theorem containsKey_of_mem_keys {β : Type} (ps : List (String × β)) (k : String)
    (h : k ∈ keysOf ps) : containsKey ps k = true := by
  simp [containsKey, List.contains, List.elem_iff]
  exact h

mutual

/-- `diffSchemas` from the diff engine: a kind change emits one
`type_changed`/`nesting_changed` and stops; otherwise the own-level
nullable/format changes are followed by the object section and the array
section. -/
def diffSchemas (before after : SchemaNode) (path : String) : List DriftChange :=
  if before.type ≠ after.type then
    if (before.type = .object ∧ after.type ≠ .object)
        ∨ (before.type ≠ .object ∧ after.type = .object) then
      [change .nesting_changed (rootLabel path)
        ("Nesting changed at \"" ++ rootLabel path ++ "\" (" ++ typeLabel before
          ++ " → " ++ typeLabel after ++ ")")
        (some (typeLabel before)) (some (typeLabel after))]
    else
      [change .type_changed (rootLabel path)
        ("Type changed at \"" ++ rootLabel path ++ "\" (" ++ typeLabel before
          ++ " → " ++ typeLabel after ++ ")")
        (some (typeLabel before)) (some (typeLabel after))]
  else
    nullableChangesOf before after path ++ formatChangesOf before after path
      ++ objectSectionOf before after path ++ arraySectionOf before after path
termination_by (sizeOf before + sizeOf after, 2, 0)
decreasing_by
  all_goals apply Prod.Lex.right
  all_goals apply Prod.Lex.left
  all_goals omega

/-- The shared-keys loop of the object section: for each (deduplicated) key
of `before` that is also a key of `after`, recurse into the two property
schemas at the extended path.  The keys handed to it always come from
`before`'s property map, so the first half of the guard is always true. -/
def diffSharedKeys (beforeProps afterProps : List (String × SchemaNode))
    (path : String) : List String → List DriftChange
  | [] => []
  | key :: rest =>
    (if h : containsKey beforeProps key = true ∧ containsKey afterProps key = true then
      diffSchemas (jsGet beforeProps key) (jsGet afterProps key) (joinPath path key)
    else [])
    ++ diffSharedKeys beforeProps afterProps path rest
termination_by l => (sizeOf beforeProps + sizeOf afterProps, 0, sizeOf l)
decreasing_by
  · apply Prod.Lex.left
    have h1 := sizeOf_jsGet_props_lt beforeProps key h.1
    have h2 := sizeOf_jsGet_props_lt afterProps key h.2
    omega
  · apply Prod.Lex.right
    apply Prod.Lex.right
    (try simp) <;> omega

/-- The object-properties section of `diffSchemas`: renames, unmatched
removals, unmatched additions, required flips, then recursion into shared
keys. -/
def objectSectionOf (before after : SchemaNode) (path : String) : List DriftChange :=
  if before.type = .object ∧ after.type = .object then
    detectRenames (removedFieldsOf (jsProps before) (jsProps after))
      (addedFieldsOf (jsProps before) (jsProps after)) path
    ++ removalChangesOf (removedFieldsOf (jsProps before) (jsProps after))
      ((detectRenames (removedFieldsOf (jsProps before) (jsProps after))
        (addedFieldsOf (jsProps before) (jsProps after)) path).filterMap (fun r => r.before))
      path
    ++ additionChangesOf (addedFieldsOf (jsProps before) (jsProps after))
      ((detectRenames (removedFieldsOf (jsProps before) (jsProps after))
        (addedFieldsOf (jsProps before) (jsProps after)) path).filterMap (fun r => r.after))
      path
    ++ requiredChangesOf before after path
    ++ diffSharedKeys (jsProps before) (jsProps after) path
        (dedupFirst (keysOf (jsProps before)))
  else []
termination_by (sizeOf before + sizeOf after, 1, 0)
decreasing_by
  apply Prod.Lex.left
  have h1 := sizeOf_jsProps_lt before
  have h2 := sizeOf_jsProps_lt after
  omega

/-- The array-items section of `diffSchemas`: recursive item diff, collapsed
to one `array_items_changed` when the item diff carries a kind change, then
the homogeneity comparison. -/
def arraySectionOf (before after : SchemaNode) (path : String) : List DriftChange :=
  if before.type = .array ∧ after.type = .array then
    (match hb : before.items, ha : after.items with
     | some bi, some ai =>
       let itemChanges := diffSchemas bi ai (itemsPath path)
       if itemChanges.length > 0 then
         if itemChanges.any (fun c => c.type = .type_changed || c.type = .nesting_changed) then
           [change .array_items_changed (rootLabel path)
             ("Array items changed at \"" ++ rootLabel path ++ "\" (" ++ typeLabel bi
               ++ " → " ++ typeLabel ai ++ ")")
             (some (typeLabel bi)) (some (typeLabel ai))]
         else itemChanges
       else []
     | _, _ => [])
    ++ homogeneityChangesOf before after path
  else []
termination_by (sizeOf before + sizeOf after, 1, 0)
decreasing_by
  apply Prod.Lex.left
  have h1 := sizeOf_items_lt before bi hb
  have h2 := sizeOf_items_lt after ai ha
  omega

end

/-- The per-severity deduction of `calculateCompatibilityScore`. -/
def severityPenalty : DriftSeverity → Int
  | .breaking => 15
  | .warning => 5
  | .info => 1

/-- `calculateCompatibilityScore` from the diff engine: start at 100,
subtract per change by severity, floor at 0. -/
def calculateCompatibilityScore (changes : List DriftChange) : Int :=
  max 0 (changes.foldl (fun score c => score - severityPenalty c.severity) 100)

/-! ### Node predicates and structural equality -/

theorem sizeOf_snd_lt_of_mem (ps : List (String × SchemaNode)) (p : String × SchemaNode)
    (h : p ∈ ps) : sizeOf p.2 < sizeOf ps := by
  have h1 : sizeOf p < sizeOf ps := List.sizeOf_lt_of_mem h
  obtain ⟨k, v⟩ := p
  simp at h1 ⊢
  omega

mutual

/-- Recursive conjunction of a per-node predicate over a whole schema tree
(the node itself, its properties, its item schema, its union members). -/
def nodeAll (p : SchemaNode → Bool) (n : SchemaNode) : Bool :=
  p n
  && nodeAllProps p (jsProps n)
  && (match hi : n.items with
      | some x => nodeAll p x
      | none => true)
  && (match ho : n.oneOf with
      | some l => nodeAllList p l
      | none => true)
termination_by sizeOf n
decreasing_by
  · have := sizeOf_jsProps_lt n
    omega
  · have := sizeOf_items_lt n x hi
    omega
  · have : sizeOf l < sizeOf n := by
      cases n with
      | mk t nb f pp r i hh o sc =>
        simp [SchemaNode.oneOf] at ho
        subst ho
        simp
        omega
    omega

/-- `nodeAll` over the property values of an object. -/
def nodeAllProps (p : SchemaNode → Bool) : List (String × SchemaNode) → Bool
  | [] => true
  | (_, v) :: rest => nodeAll p v && nodeAllProps p rest
termination_by l => sizeOf l
decreasing_by
  all_goals (try simp) <;> omega

/-- `nodeAll` over the members of a union. -/
def nodeAllList (p : SchemaNode → Bool) : List SchemaNode → Bool
  | [] => true
  | x :: rest => nodeAll p x && nodeAllList p rest
termination_by l => sizeOf l
decreasing_by
  all_goals (try simp) <;> omega

end

theorem nodeAllProps_mem (p : SchemaNode → Bool) (l : List (String × SchemaNode))
    (h : nodeAllProps p l = true) (k : String) (v : SchemaNode)
    (hm : (k, v) ∈ l) : nodeAll p v = true := by
  induction l with
  | nil => simp at hm
  | cons hd tl ih =>
    obtain ⟨k0, v0⟩ := hd
    rw [nodeAllProps, Bool.and_eq_true] at h
    rcases List.mem_cons.mp hm with hm | hm
    · rw [Prod.mk.injEq] at hm
      rw [hm.2]
      exact h.1
    · exact ih h.2 hm

theorem nodeAllList_mem (p : SchemaNode → Bool) (l : List SchemaNode)
    (h : nodeAllList p l = true) (x : SchemaNode) (hm : x ∈ l) :
    nodeAll p x = true := by
  induction l with
  | nil => simp at hm
  | cons hd tl ih =>
    rw [nodeAllList, Bool.and_eq_true] at h
    rcases List.mem_cons.mp hm with hm | hm
    · subst hm
      exact h.1
    · exact ih h.2 hm

theorem nodeAll_self (p : SchemaNode → Bool) (n : SchemaNode)
    (h : nodeAll p n = true) : p n = true := by
  rw [nodeAll] at h
  simp only [Bool.and_eq_true] at h
  exact h.1.1.1

theorem nodeAll_prop (p : SchemaNode → Bool) (n : SchemaNode) (k : String)
    (v : SchemaNode) (h : nodeAll p n = true) (hm : (k, v) ∈ jsProps n) :
    nodeAll p v = true := by
  rw [nodeAll] at h
  simp only [Bool.and_eq_true] at h
  exact nodeAllProps_mem p (jsProps n) h.1.1.2 k v hm

theorem nodeAll_lookup (p : SchemaNode → Bool) (n : SchemaNode) (k : String)
    (v : SchemaNode) (h : nodeAll p n = true)
    (hl : lookupFirst (jsProps n) k = some v) : nodeAll p v = true :=
  nodeAll_prop p n k v h (lookupFirst_mem _ _ _ hl)

theorem nodeAll_items (p : SchemaNode → Bool) (n : SchemaNode) (i : SchemaNode)
    (h : nodeAll p n = true) (hi : n.items = some i) : nodeAll p i = true := by
  rw [nodeAll] at h
  simp only [Bool.and_eq_true] at h
  have := h.1.2
  rw [hi] at this
  exact this

theorem nodeAll_oneOf (p : SchemaNode → Bool) (n : SchemaNode) (l : List SchemaNode)
    (x : SchemaNode) (h : nodeAll p n = true) (ho : n.oneOf = some l) (hx : x ∈ l) :
    nodeAll p x = true := by
  rw [nodeAll] at h
  simp only [Bool.and_eq_true] at h
  have := h.2
  rw [ho] at this
  exact nodeAllList_mem p l this x hx

/-- Well-formedness of a node tree: property keys are distinct at every
object (JS `Record`s never hold a duplicate key). -/
def wfNode (n : SchemaNode) : Bool :=
  nodeAll (fun m => decide (keysOf (jsProps m)).Nodup) n

/-- No node of the tree has kind `unknown`; in particular no union node
(`createUnionSchema` always gives a union node kind `unknown`) and no
empty-array item placeholder occurs. -/
def noUnknown (n : SchemaNode) : Bool :=
  nodeAll (fun m => m.type != .unknown) n

/-- The required-fields invariant of the spec:
`requiredFields ⊆ keys(properties)` at every node of the tree. -/
def reqInvariant (n : SchemaNode) : Bool :=
  nodeAll (fun m => (jsRequired m).all (fun k => containsKey (jsProps m) k)) n

mutual

/-- Structural equality of schema nodes in the sense of the spec: same kind,
nullable, format hint and sample count, equal properties ignoring key order
(recursively), equal required sets, equal item schemas, and equal union
member sets (membership up to structural equality). -/
def structEq (a b : SchemaNode) : Bool :=
  a.type == b.type && a.nullable == b.nullable && a.format == b.format
  && a.sampleCount == b.sampleCount
  && structEqProps (jsProps a) (jsProps b)
  && (keysOf (jsProps b)).all (fun k => containsKey (jsProps a) k)
  && (jsRequired a).all (fun k => (jsRequired b).contains k)
  && (jsRequired b).all (fun k => (jsRequired a).contains k)
  && (match hx : a.items, hy : b.items with
      | none, none => true
      | some x, some y => structEq x y
      | _, _ => false)
  && a.homogeneous == b.homogeneous
  && (match hla : a.oneOf, hlb : b.oneOf with
      | none, none => true
      | some la, some lb => structEqMemAll la lb && structEqMemAll lb la
      | _, _ => false)
termination_by sizeOf a + sizeOf b
decreasing_by
  · have h1 := sizeOf_jsProps_lt a
    have h2 := sizeOf_jsProps_lt b
    omega
  · have h1 := sizeOf_items_lt a x hx
    have h2 := sizeOf_items_lt b y hy
    omega
  · have h1 := sizeOf_oneOfList_lt a la hla
    have h2 := sizeOf_oneOfList_lt b lb hlb
    omega
  · have h1 := sizeOf_oneOfList_lt a la hla
    have h2 := sizeOf_oneOfList_lt b lb hlb
    omega

/-- Per-key half of `structEq` on property maps: every binding of the first
map has a structurally equal binding in the second. -/
def structEqProps : List (String × SchemaNode) → List (String × SchemaNode) → Bool
  | [], _ => true
  | (k, v) :: rest, pb =>
    (match hw : lookupFirst pb k with
     | some w => structEq v w
     | none => false)
    && structEqProps rest pb
termination_by pa pb => sizeOf pa + sizeOf pb
decreasing_by
  all_goals first
    | (have h1 := sizeOf_lookupFirst_lt pb k w hw
       (try simp) <;> omega)
    | ((try simp) <;> omega)

/-- Every member of the first list has a structurally equal member of the
second list. -/
def structEqMemAll : List SchemaNode → List SchemaNode → Bool
  | [], _ => true
  | x :: rest, lb => structEqAny x lb && structEqMemAll rest lb
termination_by la lb => sizeOf la + sizeOf lb
decreasing_by
  all_goals (try simp) <;> omega

/-- Some member of the list is structurally equal to `x`. -/
def structEqAny (x : SchemaNode) : List SchemaNode → Bool
  | [] => false
  | y :: rest => structEq x y || structEqAny x rest
termination_by l => sizeOf x + sizeOf l
decreasing_by
  all_goals (try simp) <;> omega

end

/-! ### Small arithmetic and format-merge lemmas -/

theorem jsOr1_pos (o : Option Nat) : 1 ≤ jsOr1 o := by
  rcases o with _ | n
  · simp [jsOr1]
  · rcases n with _ | n <;> simp [jsOr1]

theorem jsOr1_some_of_pos (n : Nat) (h : 1 ≤ n) : jsOr1 (some n) = n := by
  rcases n with _ | n
  · omega
  · simp [jsOr1]

theorem jsOr1_add_pos (x y : Option Nat) : 1 ≤ jsOr1 x + jsOr1 y := by
  have := jsOr1_pos x
  omega

/-- The format-hint merge `a.format === b.format ? a.format : null` is
associative (disagreement collapses to the JS `null`, which then absorbs). -/
theorem fmtMerge_assoc (x y z : Option (Option FormatHint)) :
    (if (if x = y then x else some none) = z then (if x = y then x else some none)
      else some none)
    = (if x = (if y = z then y else some none) then x
      else some none) := by
  by_cases hxy : x = y <;> by_cases hyz : y = z <;>
    by_cases hxz : x = z <;>
    simp_all <;>
    by_cases hxn : x = some none <;> simp_all

/-- Merging two nodes of one primitive kind (string/number/boolean) takes
the primitive branch of `mergeSchemas`: nullable is OR-ed, an agreeing
format hint is kept (else dropped to null), sample counts add. -/
theorem merge_prim (k : SchemaType) (hk : k = .string ∨ k = .number ∨ k = .boolean)
    (a b : SchemaNode) (ha : a.type = k) (hb : b.type = k) :
    mergeSchemas a b = .mk k (a.nullable || b.nullable)
      (if a.format = b.format then a.format else some none)
      none none none none none (some (jsOr1 a.sampleCount + jsOr1 b.sampleCount)) := by
  rcases hk with hk | hk | hk <;> subst hk <;>
    rw [mergeSchemas] <;> simp [ha, hb]

/-! ### Claim C1: associativity of merge -/

/-- A plain inferred string node. -/
def strNode : SchemaNode := .mk .string false (some none) none none none none none (some 1)

/-- A plain inferred integer-number node. -/
def numNode : SchemaNode :=
  .mk .number false (some (some .integer)) none none none none none (some 1)

/-- A plain inferred boolean node. -/
def boolNode : SchemaNode := .mk .boolean false none none none none none none (some 1)

/-- A string node carrying the `email` format hint, as inferred from an
email-shaped sample. -/
def emailStrNode : SchemaNode :=
  .mk .string false (some (some .email)) none none none none none (some 1)

/-- C1 counterexample: merge is not associative.  `merge(string, number)`
is a union node, whose kind is `unknown`; rule 3 of `merge` then adopts
the third argument wholesale, so one association yields a boolean node and
the other a string node. -/
theorem C1_counterexample :
    (mergeSchemas (mergeSchemas strNode numNode) boolNode).type = .boolean
    ∧ (mergeSchemas strNode (mergeSchemas numNode boolNode)).type = .string := by
  constructor <;>
    simp [mergeSchemas, strNode, numNode, boolNode, unionOfPair, jsOr1,
      SchemaNode.type, SchemaNode.sampleCount, SchemaNode.setSampleCount,
      SchemaNode.setNullable]

/-- C1 amended: merge is associative on nodes that all share one primitive
kind (string, number or boolean); associativity fails as soon as an
intermediate merge produces a union node, which rule 3 treats as `unknown`
(see the counterexample). -/
theorem C1_merge_assoc_primitive (a b c : SchemaNode) (k : SchemaType)
    (hk : k = .string ∨ k = .number ∨ k = .boolean)
    (ha : a.type = k) (hb : b.type = k) (hc : c.type = k) :
    mergeSchemas (mergeSchemas a b) c = mergeSchemas a (mergeSchemas b c) := by
  rw [merge_prim k hk a b ha hb, merge_prim k hk b c hb hc,
    merge_prim k hk _ c (by rfl) hc, merge_prim k hk a _ ha (by rfl)]
  simp only [SchemaNode.nullable_mk, SchemaNode.format_mk, SchemaNode.sampleCount_mk]
  rw [jsOr1_some_of_pos _ (jsOr1_add_pos _ _), jsOr1_some_of_pos _ (jsOr1_add_pos _ _)]
  rw [Bool.or_assoc, fmtMerge_assoc, Nat.add_assoc]

/-- C1 amended witness: three concrete string nodes (varying formats and
nullability) merge associatively. -/
theorem C1_merge_assoc_primitive_witness :
    mergeSchemas (mergeSchemas strNode (strNode.setNullable true)) emailStrNode
      = mergeSchemas strNode (mergeSchemas (strNode.setNullable true) emailStrNode) :=
  C1_merge_assoc_primitive _ _ _ .string (Or.inl rfl) rfl rfl rfl

/-! ### Claim C4: union construction on string vs string with email hint -/

/-- C4 counterexample: `createUnionSchema` groups candidates by
`(kind, formatHint)`, so a plain string and an email string fall into two
distinct groups and the result is a union (`unknown`-kind, `oneOf` of both)
— not a single string-kind node. -/
theorem C4_counterexample :
    (createUnionSchema [strNode, emailStrNode]).type = .unknown
    ∧ (createUnionSchema [strNode, emailStrNode]).oneOf.isSome = true := by
  constructor <;>
    simp [createUnionSchema, strNode, emailStrNode, typeMapKey, containsKey,
      keysOf, typeStr, formatHintStr, jsOr1, SchemaNode.type, SchemaNode.format,
      SchemaNode.oneOf, SchemaNode.sampleCount, mapSet]

/-- C4 amended: union construction keeps `\x7bstring, string<email>\x7d` as a
two-member union node; it is the direct merge of the two string nodes that
collapses to the plain string (the disagreeing hint is dropped), which is
where the implementation prefers the plain string. -/
theorem C4_union_keeps_email_group :
    createUnionSchema [strNode, emailStrNode]
      = .mk .unknown false none none none none none (some [strNode, emailStrNode]) (some 2)
    ∧ mergeSchemas strNode emailStrNode
      = .mk .string false (some none) none none none none none (some 2) := by
  constructor
  · simp [createUnionSchema, strNode, emailStrNode, typeMapKey, containsKey,
      keysOf, typeStr, formatHintStr, jsOr1, SchemaNode.type, SchemaNode.format,
      SchemaNode.sampleCount, mapSet]
  · simp [mergeSchemas, strNode, emailStrNode, jsOr1, SchemaNode.type,
      SchemaNode.format, SchemaNode.nullable, SchemaNode.sampleCount]

/-! ### Claim C7: the compatibility score formula -/

theorem score_foldl (changes : List DriftChange) (init : Int) :
    changes.foldl (fun score c => score - severityPenalty c.severity) init
      = init - (15 * (changes.countP (fun c => c.severity == .breaking))
        + 5 * (changes.countP (fun c => c.severity == .warning))
        + (changes.countP (fun c => c.severity == .info))) := by
  induction changes generalizing init with
  | nil => simp
  | cons hd tl ih =>
    rw [List.foldl_cons, ih]
    rcases hsev : hd.severity <;>
      simp [List.countP_cons, hsev, severityPenalty] <;> push_cast <;> ring

/-- C7: the compatibility score equals
`max 0 (100 - 15*breaking - 5*warning - 1*info)`, lies in `[0, 100]`, and in
particular one breaking + one warning + one info scores 79 while ten
breaking changes clamp to 0. -/
theorem C7_compatibilityScore (changes : List DriftChange) :
    calculateCompatibilityScore changes
      = max 0 (100 - 15 * ((changes.countP (fun c => c.severity == .breaking) : Nat) : Int)
        - 5 * ((changes.countP (fun c => c.severity == .warning) : Nat) : Int)
        - ((changes.countP (fun c => c.severity == .info) : Nat) : Int))
    ∧ 0 ≤ calculateCompatibilityScore changes
    ∧ calculateCompatibilityScore changes ≤ 100
    ∧ calculateCompatibilityScore
        [change .type_changed "a" "m" none none, change .nullable_changed "b" "m" none none,
          change .field_added "c" "m" none none] = 79
    ∧ calculateCompatibilityScore
        (List.replicate 10 (change .field_removed "x" "m" none none)) = 0 := by
  refine ⟨?_, ?_, ?_, by rfl, by rfl⟩
  · rw [calculateCompatibilityScore, score_foldl]
    congr 1
    ring
  · rw [calculateCompatibilityScore]
    exact le_max_left 0 _
  · rw [calculateCompatibilityScore, score_foldl]
    have hb : (0 : Int) ≤ changes.countP (fun c => c.severity == .breaking) := by positivity
    have hw : (0 : Int) ≤ changes.countP (fun c => c.severity == .warning) := by positivity
    have hi : (0 : Int) ≤ changes.countP (fun c => c.severity == .info) := by positivity
    omega

/-! ### Claim C10: diff never inspects union members -/

/-- C10: two `unknown`-kind nodes with equal nullable and format diff to
zero changes whatever their `unionOf` lists are — the diff engine never
looks at union members beyond the type label of a kind change. -/
theorem C10_diff_ignores_union_members (a b : SchemaNode) (path : String)
    (ha : a.type = .unknown) (hb : b.type = .unknown)
    (hn : a.nullable = b.nullable) (hf : a.format = b.format) :
    diffSchemas a b path = [] := by
  rw [diffSchemas, objectSectionOf, arraySectionOf]
  simp [ha, hb, hn, hf, nullableChangesOf, formatChangesOf]

/-- C10 witness: two union nodes with entirely different member lists
produce an empty diff. -/
theorem C10_diff_ignores_union_members_witness :
    diffSchemas
      (SchemaNode.mk .unknown false none none none none none (some [strNode, numNode]) (some 2))
      (SchemaNode.mk .unknown false none none none none none (some [boolNode]) (some 5))
      "x" = [] :=
  C10_diff_ignores_union_members _ _ "x" rfl rfl rfl rfl

/-! ### Claim C8: diff treats a missing properties mapping as empty -/

/-- A fold that never changes its accumulator returns the initial
accumulator. -/
theorem foldl_acc_fixed {a b : Type} (l : List a) (f : List b → a → List b)
    (hf : ∀ acc x, x ∈ l → f acc x = acc) : ∀ acc, l.foldl f acc = acc := by
  induction l with
  | nil => intro acc; simp
  | cons hd tl ih =>
    intro acc
    rw [List.foldl_cons, hf acc hd (by simp)]
    exact ih (fun acc x hx => hf acc x (List.mem_cons_of_mem _ hx)) acc

/-- `typeLabel` never reads the `properties` field. -/
theorem typeLabel_props_irrel (t : SchemaType) (nb : Bool) (f : Option (Option FormatHint))
    (p p' : Option (List (String × SchemaNode))) (r : Option (List String))
    (i : Option SchemaNode) (hh : Option Bool) (o : Option (List SchemaNode))
    (s : Option Nat) :
    typeLabel (.mk t nb f p r i hh o s) = typeLabel (.mk t nb f p' r i hh o s) := by
  rw [typeLabel, typeLabel]
  simp

/-- C8: diff is total by construction, and an object node with a missing
`properties` mapping is diffed exactly as one with an empty property set,
on either side of the comparison. -/
theorem C8_missing_properties_as_empty (n m : SchemaNode) (path : String)
    (h : n.type = .object) :
    diffSchemas (n.setProperties none) m path
      = diffSchemas (n.setProperties (some [])) m path
    ∧ diffSchemas m (n.setProperties none) path
      = diffSchemas m (n.setProperties (some [])) path := by
  clear h
  cases n with
  | mk t nb f pp r i hh o s =>
    simp only [SchemaNode.setProperties]
    constructor
    · rw [diffSchemas, diffSchemas,
        typeLabel_props_irrel t nb f none (some []) r i hh o s]
      simp only [objectSectionOf, arraySectionOf, nullableChangesOf, formatChangesOf,
        requiredChangesOf, homogeneityChangesOf, jsProps, jsRequired,
        SchemaNode.type_mk, SchemaNode.nullable_mk, SchemaNode.format_mk,
        SchemaNode.properties_mk, SchemaNode.required_mk, SchemaNode.items_mk,
        SchemaNode.homogeneous_mk, SchemaNode.oneOf_mk, SchemaNode.sampleCount_mk,
        Option.getD_none, Option.getD_some]
    · rw [diffSchemas, diffSchemas,
        typeLabel_props_irrel t nb f none (some []) r i hh o s]
      simp only [objectSectionOf, arraySectionOf, nullableChangesOf, formatChangesOf,
        requiredChangesOf, homogeneityChangesOf, jsProps, jsRequired,
        SchemaNode.type_mk, SchemaNode.nullable_mk, SchemaNode.format_mk,
        SchemaNode.properties_mk, SchemaNode.required_mk, SchemaNode.items_mk,
        SchemaNode.homogeneous_mk, SchemaNode.oneOf_mk, SchemaNode.sampleCount_mk,
        Option.getD_none, Option.getD_some]

/-- C8 witness: an object node lacking `properties` diffs against an
arbitrary other node exactly like the same node with an empty property
mapping. -/
theorem C8_missing_properties_as_empty_witness :
    ((SchemaNode.mk .object false none none (some ["id"]) none none none (some 1)).type
        = SchemaType.object)
    ∧ (diffSchemas
        ((SchemaNode.mk .object false none none (some ["id"]) none none none
          (some 1)).setProperties none)
        strNode ""
      = diffSchemas
        ((SchemaNode.mk .object false none none (some ["id"]) none none none
          (some 1)).setProperties (some []))
        strNode "") :=
  ⟨rfl, (C8_missing_properties_as_empty
    (SchemaNode.mk .object false none none (some ["id"]) none none none (some 1))
    strNode "" rfl).1⟩

/-! ### Claim C3: the diff of a schema against itself is empty -/

theorem one_le_sizeOf_node (n : SchemaNode) : 1 ≤ sizeOf n := by
  cases n with
  | mk t nb f p r i hh o s => simp; omega

theorem contains_of_mem {α : Type} [BEq α] [LawfulBEq α] (l : List α) (x : α)
    (h : x ∈ l) : l.contains x = true := by
  simp [List.contains, List.elem_iff]
  exact h

theorem removedFieldsOf_self (ps : List (String × SchemaNode)) :
    removedFieldsOf ps ps = [] := by
  rw [removedFieldsOf, List.filterMap_eq_nil]
  intro key hk
  rw [if_pos (containsKey_of_mem_keys ps key ((mem_dedupFirst _ _).mp hk))]

theorem addedFieldsOf_self (ps : List (String × SchemaNode)) :
    addedFieldsOf ps ps = [] := by
  rw [addedFieldsOf, List.filterMap_eq_nil]
  intro key hk
  rw [if_pos (containsKey_of_mem_keys ps key ((mem_dedupFirst _ _).mp hk))]

theorem nullableChangesOf_self (s : SchemaNode) (path : String) :
    nullableChangesOf s s path = [] := by
  simp [nullableChangesOf]

theorem formatChangesOf_self (s : SchemaNode) (path : String) :
    formatChangesOf s s path = [] := by
  simp [formatChangesOf]

theorem requiredChangesOf_self (s : SchemaNode) (path : String) :
    requiredChangesOf s s path = [] := by
  rw [requiredChangesOf, List.append_eq_nil]
  constructor <;>
  · rw [List.filterMap_eq_nil]
    intro key hk
    have hm := (mem_dedupFirst _ _).mp hk
    simp [contains_of_mem _ _ hm, hm]

theorem homogeneityChangesOf_self (s : SchemaNode) (path : String) :
    homogeneityChangesOf s s path = [] := by
  rw [homogeneityChangesOf]
  rcases hh : s.homogeneous with _ | b <;> simp [hh]

theorem diffSharedKeys_self (ps : List (String × SchemaNode)) (path : String)
    (IH : ∀ k, containsKey ps k = true →
      ∀ p, diffSchemas (jsGet ps k) (jsGet ps k) p = []) :
    ∀ l, diffSharedKeys ps ps path l = [] := by
  intro l
  induction l with
  | nil => rw [diffSharedKeys]
  | cons key rest ih =>
    rw [diffSharedKeys, ih, List.append_nil]
    split
    · rename_i h
      exact IH key h.1 (joinPath path key)
    · rfl

theorem objectSectionOf_self (s : SchemaNode) (path : String)
    (IH : ∀ (k : String), containsKey (jsProps s) k = true →
      ∀ p, diffSchemas (jsGet (jsProps s) k) (jsGet (jsProps s) k) p = []) :
    objectSectionOf s s path = [] := by
  rw [objectSectionOf]
  split
  · rw [removedFieldsOf_self, addedFieldsOf_self, diffSharedKeys_self (jsProps s) path IH]
    simp [detectRenames, detectRenamesGo, removalChangesOf, additionChangesOf,
      requiredChangesOf_self]
  · rfl

theorem arraySectionOf_self (s : SchemaNode) (path : String)
    (IH : ∀ bi, s.items = some bi → ∀ p, diffSchemas bi bi p = []) :
    arraySectionOf s s path = [] := by
  rw [arraySectionOf]
  split
  · rcases hi : s.items with _ | bi
    · simp [hi, homogeneityChangesOf_self]
    · simp [hi, IH bi hi, homogeneityChangesOf_self]
  · rfl

theorem diffSchemas_self_aux (N : Nat) :
    ∀ s : SchemaNode, sizeOf s ≤ N → ∀ path, diffSchemas s s path = [] := by
  induction N with
  | zero =>
    intro s hs
    exact absurd hs (by have := one_le_sizeOf_node s; omega)
  | succ N ih =>
    intro s hs path
    rw [diffSchemas, if_neg (by simp : ¬ s.type ≠ s.type)]
    rw [nullableChangesOf_self, formatChangesOf_self,
      objectSectionOf_self s path
        (fun k hck p => ih _ (by have := sizeOf_jsGet_lt s k hck; omega) p),
      arraySectionOf_self s path
        (fun bi hbi p => ih _ (by have := sizeOf_items_lt s bi hbi; omega) p)]
    simp

/-- Diffing any schema node against itself yields no changes. -/
theorem diffSchemas_self (s : SchemaNode) (path : String) : diffSchemas s s path = [] :=
  diffSchemas_self_aux (sizeOf s) s (le_refl _) path

/-- C3: for every JSON-like value, the diff of its inferred schema against
itself is empty (including values whose schema contains union nodes and
nested arrays and objects). -/
theorem C3_diff_infer_self (v : Json) :
    diffSchemas (inferSchema v) (inferSchema v) "" = [] :=
  diffSchemas_self _ _

/-! ### Path-shape and membership lemmas for the diff sections -/

theorem arraySectionOf_nonarray (before after : SchemaNode) (path : String)
    (h : ¬ before.type = .array) : arraySectionOf before after path = [] := by
  rw [arraySectionOf, if_neg]
  intro hc
  exact h hc.1

theorem objectSectionOf_nonobject (before after : SchemaNode) (path : String)
    (h : ¬ before.type = .object) : objectSectionOf before after path = [] := by
  rw [objectSectionOf, if_neg]
  intro hc
  exact h hc.1

theorem rootLabel_extends (p : String) : ∃ s, rootLabel p = p ++ s := by
  by_cases h : p = ""
  · exact ⟨"(root)", by simp [rootLabel, h]⟩
  · exact ⟨"", by simp [rootLabel, h]⟩

theorem joinPath_extends (p k : String) : ∃ s, joinPath p k = p ++ s := by
  by_cases h : p = ""
  · exact ⟨k, by simp [joinPath, h]⟩
  · exact ⟨"." ++ k, by simp [joinPath, h, String.append_assoc]⟩

theorem itemsPath_extends (p : String) : ∃ s, itemsPath p = p ++ s := by
  by_cases h : p = ""
  · exact ⟨"[]", by simp [itemsPath, h]⟩
  · exact ⟨"[]", by simp [itemsPath, h]⟩

theorem mem_nullableChangesOf (a b : SchemaNode) (path : String) (c : DriftChange)
    (hc : c ∈ nullableChangesOf a b path) :
    c.type = .nullable_changed ∧ c.path = rootLabel path := by
  rw [nullableChangesOf] at hc
  split at hc
  · rcases List.mem_singleton.mp hc with rfl
    exact ⟨rfl, rfl⟩
  · simp at hc

theorem mem_formatChangesOf (a b : SchemaNode) (path : String) (c : DriftChange)
    (hc : c ∈ formatChangesOf a b path) :
    c.type = .format_changed ∧ c.path = rootLabel path := by
  rw [formatChangesOf] at hc
  split at hc
  · rcases List.mem_singleton.mp hc with rfl
    exact ⟨rfl, rfl⟩
  · simp at hc

theorem mem_homogeneityChangesOf (a b : SchemaNode) (path : String) (c : DriftChange)
    (hc : c ∈ homogeneityChangesOf a b path) :
    c.type = .homogeneity_changed ∧ c.path = rootLabel path := by
  rw [homogeneityChangesOf] at hc
  split at hc
  · split at hc
    · rcases List.mem_singleton.mp hc with rfl
      exact ⟨rfl, rfl⟩
    · simp at hc
  · simp at hc

theorem detectRenamesGo_mem (added : List (String × SchemaNode)) (basePath : String) :
    ∀ (removed : List (String × SchemaNode)) (matched : List String) (c : DriftChange),
    c ∈ detectRenamesGo added basePath removed matched →
    ∃ rKey aKey, c = change .field_renamed (joinPath basePath rKey)
      ("Field possibly renamed: \"" ++ rKey ++ "\" → \"" ++ aKey ++ "\"")
      (some rKey) (some aKey) := by
  intro removed
  induction removed with
  | nil => intro matched c hc; rw [detectRenamesGo] at hc; simp at hc
  | cons hd rest ih =>
    intro matched c hc
    obtain ⟨rKey, rSchema⟩ := hd
    rw [detectRenamesGo] at hc
    rcases hfm : findRenameMatch rKey rSchema matched added with _ | aKey <;> rw [hfm] at hc
    · exact ih matched c hc
    · rcases List.mem_cons.mp hc with rfl | hc
      · exact ⟨rKey, aKey, rfl⟩
      · exact ih (matched ++ [aKey]) c hc

theorem mem_removalChangesOf (rf : List (String × SchemaNode)) (rb : List String)
    (path : String) (c : DriftChange) (hc : c ∈ removalChangesOf rf rb path) :
    ∃ kv ∈ rf, rb.contains kv.1 = false
      ∧ c = change .field_removed (joinPath path kv.1)
        ("Field removed: \"" ++ joinPath path kv.1 ++ "\" (was: " ++ typeLabel kv.2 ++ ")")
        (some (typeLabel kv.2)) none := by
  rw [removalChangesOf] at hc
  obtain ⟨kv, hkv, hf⟩ := List.mem_filterMap.mp hc
  refine ⟨kv, hkv, ?_⟩
  split at hf
  · simp at hf
  · rename_i hnb
    simp only [Option.some.injEq] at hf
    exact ⟨Bool.of_not_eq_true hnb, hf.symm⟩

theorem mem_additionChangesOf (af : List (String × SchemaNode)) (ra : List String)
    (path : String) (c : DriftChange) (hc : c ∈ additionChangesOf af ra path) :
    ∃ kv ∈ af, ra.contains kv.1 = false
      ∧ c = change .field_added (joinPath path kv.1)
        ("Field added: \"" ++ joinPath path kv.1 ++ "\" (" ++ typeLabel kv.2 ++ ")")
        none (some (typeLabel kv.2)) := by
  rw [additionChangesOf] at hc
  obtain ⟨kv, hkv, hf⟩ := List.mem_filterMap.mp hc
  refine ⟨kv, hkv, ?_⟩
  split at hf
  · simp at hf
  · rename_i hnb
    simp only [Option.some.injEq] at hf
    exact ⟨Bool.of_not_eq_true hnb, hf.symm⟩

theorem mem_requiredChangesOf (a b : SchemaNode) (path : String) (c : DriftChange)
    (hc : c ∈ requiredChangesOf a b path) :
    c.type = .required_changed ∧ ∃ key, c.path = joinPath path key := by
  rw [requiredChangesOf] at hc
  rcases List.mem_append.mp hc with hc | hc <;>
  · obtain ⟨key, hkey, hf⟩ := List.mem_filterMap.mp hc
    split at hf
    · simp only [Option.some.injEq] at hf
      subst hf
      exact ⟨rfl, key, rfl⟩
    · simp at hf

theorem mem_diffSharedKeys (bp ap : List (String × SchemaNode)) (path : String) :
    ∀ (l : List String) (c : DriftChange), c ∈ diffSharedKeys bp ap path l →
    ∃ key, containsKey bp key = true ∧ containsKey ap key = true
      ∧ c ∈ diffSchemas (jsGet bp key) (jsGet ap key) (joinPath path key) := by
  intro l
  induction l with
  | nil => intro c hc; rw [diffSharedKeys] at hc; simp at hc
  | cons key rest ih =>
    intro c hc
    rw [diffSharedKeys] at hc
    rcases List.mem_append.mp hc with hc | hc
    · split at hc
      · rename_i h
        exact ⟨key, h.1, h.2, hc⟩
      · simp at hc
    · exact ih c hc


theorem diff_path_extends_aux (N : Nat) :
    ∀ x y : SchemaNode, sizeOf x + sizeOf y ≤ N →
    ∀ p (c : DriftChange), c ∈ diffSchemas x y p → ∃ s, c.path = p ++ s := by
  induction N with
  | zero =>
    intro x y hxy
    exact absurd hxy (by have h1 := one_le_sizeOf_node x; omega)
  | succ N ih =>
    intro x y hxy p c hc
    rw [diffSchemas] at hc
    split at hc
    · split at hc <;>
      · rcases List.mem_singleton.mp hc with rfl
        simpa [change] using rootLabel_extends p
    · rcases List.mem_append.mp hc with hc | hc
      rotate_left
      · -- array section
        rw [arraySectionOf] at hc
        split at hc
        · rcases List.mem_append.mp hc with hc | hc
          rotate_left
          · obtain ⟨-, hp⟩ := mem_homogeneityChangesOf x y p c hc
            rw [hp]; exact rootLabel_extends p
          · split at hc
            · rename_i bi ai hbi hai
              simp only [gt_iff_lt] at hc
              split at hc
              · split at hc
                · rcases List.mem_singleton.mp hc with rfl
                  simpa [change] using rootLabel_extends p
                · obtain ⟨s1, hs1⟩ := ih bi ai
                    (by have h1 := sizeOf_items_lt x bi hbi
                        have h2 := sizeOf_items_lt y ai hai; omega)
                    (itemsPath p) c hc
                  obtain ⟨s0, hs0⟩ := itemsPath_extends p
                  exact ⟨s0 ++ s1, by rw [hs1, hs0, String.append_assoc]⟩
              · simp at hc
            · simp at hc
        · simp at hc
      rcases List.mem_append.mp hc with hc | hc
      rotate_left
      · -- object section
        rw [objectSectionOf] at hc
        split at hc
        · rcases List.mem_append.mp hc with hc | hc
          rotate_left
          · obtain ⟨key, hbk, hak, hcin⟩ := mem_diffSharedKeys _ _ p _ c hc
            obtain ⟨s1, hs1⟩ := ih _ _
              (by have h1 := sizeOf_jsGet_lt x key hbk
                  have h2 := sizeOf_jsGet_lt y key hak; omega)
              (joinPath p key) c hcin
            obtain ⟨s0, hs0⟩ := joinPath_extends p key
            exact ⟨s0 ++ s1, by rw [hs1, hs0, String.append_assoc]⟩
          rcases List.mem_append.mp hc with hc | hc
          rotate_left
          · obtain ⟨-, key, hp⟩ := mem_requiredChangesOf x y p c hc
            rw [hp]; exact joinPath_extends p key
          rcases List.mem_append.mp hc with hc | hc
          rotate_left
          · obtain ⟨kv, -, -, rfl⟩ := mem_additionChangesOf _ _ p c hc
            simpa [change] using joinPath_extends p kv.1
          rcases List.mem_append.mp hc with hc | hc
          · obtain ⟨rKey, aKey, rfl⟩ := detectRenamesGo_mem _ p _ [] c hc
            simpa [change] using joinPath_extends p rKey
          · obtain ⟨kv, -, -, rfl⟩ := mem_removalChangesOf _ _ p c hc
            simpa [change] using joinPath_extends p kv.1
        · simp at hc
      rcases List.mem_append.mp hc with hc | hc
      · obtain ⟨-, hp⟩ := mem_nullableChangesOf x y p c hc
        rw [hp]; exact rootLabel_extends p
      · obtain ⟨-, hp⟩ := mem_formatChangesOf x y p c hc
        rw [hp]; exact rootLabel_extends p

theorem diff_path_extends (x y : SchemaNode) (p : String) (c : DriftChange)
    (hc : c ∈ diffSchemas x y p) : ∃ s, c.path = p ++ s :=
  diff_path_extends_aux (sizeOf x + sizeOf y) x y (le_refl _) p c hc

/-! ### Concrete nodes and evaluations for the diff scenarios -/

/-- The property node of an inferred single-string field. -/
def roleProp : SchemaNode := .mk .string false (some none) none none none none none (some 1)

/-- `infer({role:"admin"})`. -/
def nodeR1 : SchemaNode :=
  .mk .object false none (some [("role", roleProp)]) (some ["role"]) none none none (some 1)

/-- `infer({roles:"admin"})`. -/
def nodeR2 : SchemaNode :=
  .mk .object false none (some [("roles", roleProp)]) (some ["roles"]) none none none (some 1)

theorem infer_role_eval : inferSchema (Json.obj [("role", Json.str "admin")]) = nodeR1 := by
  simp only [inferSchema, inferObjectSchema, inferPairs, List.map, nodeR1, roleProp,
    show detectFormat "admin" = none from by decide]

theorem infer_roles_eval : inferSchema (Json.obj [("roles", Json.str "admin")]) = nodeR2 := by
  simp only [inferSchema, inferObjectSchema, inferPairs, List.map, nodeR2, roleProp,
    show detectFormat "admin" = none from by decide]

theorem diff_rename_eval : diffSchemas nodeR1 nodeR2 ""
    = [change .field_renamed "role" ("Field possibly renamed: \"role\" → \"roles\"")
        (some "role") (some "roles")] := by
  rw [diffSchemas, if_neg (by decide)]
  rw [arraySectionOf_nonarray _ _ _ (by decide)]
  rw [objectSectionOf, if_pos (by decide)]
  have hsk : diffSharedKeys (jsProps nodeR1) (jsProps nodeR2) ""
      (dedupFirst (keysOf (jsProps nodeR1))) = [] := by
    rw [show dedupFirst (keysOf (jsProps nodeR1)) = ["role"] from rfl]
    rw [diffSharedKeys, diffSharedKeys, dif_neg (by decide)]
    rfl
  rw [hsk]
  rfl

/-- The item node of a two-sample merged plain-string array. -/
def strNode2 : SchemaNode := .mk .string false (some none) none none none none none (some 2)

/-- The item node of a two-sample merged integer array. -/
def intNode2 : SchemaNode :=
  .mk .number false (some (some .integer)) none none none none none (some 2)

/-- `infer(["a","b"])`. -/
def tagsArrStr : SchemaNode :=
  .mk .array false none none none (some strNode2) (some true) none (some 1)

/-- `infer([1,2])`. -/
def tagsArrInt : SchemaNode :=
  .mk .array false none none none (some intNode2) (some true) none (some 1)

/-- `infer({tags:["a","b"]})`. -/
def tagsObjStr : SchemaNode :=
  .mk .object false none (some [("tags", tagsArrStr)]) (some ["tags"]) none none none (some 1)

/-- `infer({tags:[1,2]})`. -/
def tagsObjInt : SchemaNode :=
  .mk .object false none (some [("tags", tagsArrInt)]) (some ["tags"]) none none none (some 1)

theorem infer_tagsStr :
    inferSchema (Json.obj [("tags", Json.arr [.str "a", .str "b"])]) = tagsObjStr := by
  have hm : mergeSchemas
      (SchemaNode.mk .string false (some none) none none none none none (some 1))
      (SchemaNode.mk .string false (some none) none none none none none (some 1)) = strNode2 := by
    simp [mergeSchemas, jsOr1, strNode2]
  simp [inferSchema, inferObjectSchema, inferPairs, inferArraySchema, inferList,
    show detectFormat "a" = none from by decide, show detectFormat "b" = none from by decide,
    dedupFirst, dedupFirstAux, hm, tagsObjStr, tagsArrStr]

theorem infer_tagsInt :
    inferSchema (Json.obj [("tags", Json.arr [.num true, .num true])]) = tagsObjInt := by
  have hm : mergeSchemas
      (SchemaNode.mk .number false (some (some .integer)) none none none none none (some 1))
      (SchemaNode.mk .number false (some (some .integer)) none none none none none
        (some 1)) = intNode2 := by
    simp [mergeSchemas, jsOr1, intNode2]
  simp [inferSchema, inferObjectSchema, inferPairs, inferArraySchema, inferList,
    detectNumberFormat, dedupFirst, dedupFirstAux, hm, tagsObjInt, tagsArrInt]

theorem diff_items_eval : diffSchemas strNode2 intNode2 "tags[]"
    = [change .type_changed "tags[]"
        ("Type changed at \"tags[]\" (" ++ typeLabel strNode2 ++ " → " ++ typeLabel intNode2
          ++ ")")
        (some (typeLabel strNode2)) (some (typeLabel intNode2))] := by
  rw [diffSchemas, if_pos (by decide), if_neg (by decide)]
  rfl

theorem diff_tags_eval : diffSchemas tagsObjStr tagsObjInt ""
    = [change .array_items_changed "tags"
        ("Array items changed at \"tags\" (" ++ typeLabel strNode2 ++ " → "
          ++ typeLabel intNode2 ++ ")")
        (some (typeLabel strNode2)) (some (typeLabel intNode2))] := by
  rw [diffSchemas, if_neg (by decide)]
  rw [arraySectionOf_nonarray _ _ _ (by decide)]
  rw [objectSectionOf, if_pos (by decide)]
  have hin : diffSchemas tagsArrStr tagsArrInt "tags"
      = [change .array_items_changed "tags"
          ("Array items changed at \"tags\" (" ++ typeLabel strNode2 ++ " → "
            ++ typeLabel intNode2 ++ ")")
          (some (typeLabel strNode2)) (some (typeLabel intNode2))] := by
    rw [diffSchemas, if_neg (by decide)]
    rw [objectSectionOf_nonobject _ _ _ (by decide)]
    rw [arraySectionOf, if_pos (by decide)]
    simp only [tagsArrStr, tagsArrInt, SchemaNode.items_mk,
      show itemsPath "tags" = "tags[]" from rfl, diff_items_eval]
    rw [homogeneityChangesOf]
    simp [nullableChangesOf, formatChangesOf, tagsArrStr, tagsArrInt, change,
      severityMap, rootLabel]
  have hsk : diffSharedKeys (jsProps tagsObjStr) (jsProps tagsObjInt) ""
      (dedupFirst (keysOf (jsProps tagsObjStr))) =
      diffSchemas tagsArrStr tagsArrInt "tags" := by
    rw [show dedupFirst (keysOf (jsProps tagsObjStr)) = ["tags"] from rfl]
    rw [diffSharedKeys, diffSharedKeys, dif_pos (by decide)]
    rw [List.append_nil, show jsGet (jsProps tagsObjStr) "tags" = tagsArrStr from rfl,
      show jsGet (jsProps tagsObjInt) "tags" = tagsArrInt from rfl,
      show joinPath "" "tags" = "tags" from rfl]
  rw [hsk, hin]
  rfl

/-! ### Claim C5: array item diff collapse -/


theorem arraySectionOf_collapse (a b bi ai : SchemaNode) (path : String)
    (ha : a.type = .array) (hb : b.type = .array)
    (hia : a.items = some bi) (hib : b.items = some ai)
    (hTC : (diffSchemas bi ai (itemsPath path)).any
      (fun c => c.type = .type_changed || c.type = .nesting_changed) = true) :
    arraySectionOf a b path
      = change .array_items_changed (rootLabel path)
          ("Array items changed at \"" ++ rootLabel path ++ "\" (" ++ typeLabel bi
            ++ " → " ++ typeLabel ai ++ ")")
          (some (typeLabel bi)) (some (typeLabel ai))
        :: homogeneityChangesOf a b path := by
  obtain ⟨w, hw, -⟩ := List.any_eq_true.mp hTC
  rw [arraySectionOf, if_pos ⟨ha, hb⟩]
  split
  · rename_i bi' ai' hbi' hai'
    rw [hia] at hbi'
    rw [hib] at hai'
    obtain rfl : bi' = bi := by injection hbi' with h; exact h.symm
    obtain rfl : ai' = ai := by injection hai' with h; exact h.symm
    rw [if_pos (by exact List.length_pos.mpr (List.ne_nil_of_mem hw)), if_pos hTC]
    rfl
  · rename_i hcontra
    exact absurd hib (by intro h2; exact hcontra bi ai hia h2)

theorem rootLabel_ne_itemsPath_ext (path s : String) :
    rootLabel path ≠ itemsPath path ++ s := by
  by_cases h : path = ""
  · subst h
    intro hEq
    rw [rootLabel, if_pos rfl, itemsPath, if_pos rfl] at hEq
    have h2 := congrArg String.data hEq
    rw [String.data_append] at h2
    rw [show "(root)".data = ['(', 'r', 'o', 'o', 't', ')'] from rfl,
      show "[]".data = ['[', ']'] from rfl] at h2
    simp at h2
  · intro hEq
    rw [rootLabel, if_neg h, itemsPath, if_neg h] at hEq
    have h2 := congrArg String.length hEq
    rw [String.length_append, String.length_append] at h2
    rw [show "[]".length = 2 from rfl] at h2
    omega

/-- C5: when both arrays carry an item schema and the recursive item diff
contains a `type_changed` or `nesting_changed`, the array diff contains
exactly one `array_items_changed` (severity warning) at the array's own
path, every emitted change sits at that path, and none of the item-level
changes surface; in particular the `tags` string-to-number scenario yields
exactly one `array_items_changed` at path `tags`. -/
theorem C5_array_items_collapse (a b bi ai : SchemaNode) (path : String)
    (ha : a.type = .array) (hb : b.type = .array)
    (hia : a.items = some bi) (hib : b.items = some ai)
    (hTC : (diffSchemas bi ai (itemsPath path)).any
      (fun c => c.type = .type_changed || c.type = .nesting_changed) = true) :
    ((diffSchemas a b path).countP (fun c => c.type = .array_items_changed) = 1
    ∧ (∀ c ∈ diffSchemas a b path, c.path = rootLabel path
        ∧ (c.type = .array_items_changed → c.severity = .warning))
    ∧ (∀ c ∈ diffSchemas bi ai (itemsPath path), c ∉ diffSchemas a b path))
    ∧ (diffSchemas (inferSchema (Json.obj [("tags", Json.arr [.str "a", .str "b"])]))
        (inferSchema (Json.obj [("tags", Json.arr [.num true, .num true])])) "").map
          (fun c => (c.type, c.path, c.severity))
      = [(.array_items_changed, "tags", .warning)] := by
  have htype : ¬ a.type ≠ b.type := by rw [ha, hb]; simp
  have hobj : objectSectionOf a b path = []
    := objectSectionOf_nonobject a b path (by rw [ha]; simp)
  have hd : diffSchemas a b path
      = nullableChangesOf a b path ++ formatChangesOf a b path
        ++ (change .array_items_changed (rootLabel path)
            ("Array items changed at \"" ++ rootLabel path ++ "\" (" ++ typeLabel bi
              ++ " → " ++ typeLabel ai ++ ")")
            (some (typeLabel bi)) (some (typeLabel ai))
          :: homogeneityChangesOf a b path) := by
    rw [diffSchemas, if_neg htype, hobj,
      arraySectionOf_collapse a b bi ai path ha hb hia hib hTC]
    simp
  have hmem : ∀ c ∈ diffSchemas a b path, c.path = rootLabel path
      ∧ (c.type = .array_items_changed → c.severity = .warning) := by
    intro c hc
    rw [hd] at hc
    rcases List.mem_append.mp hc with hc | hc
    · rcases List.mem_append.mp hc with hc | hc
      · obtain ⟨ht, hp⟩ := mem_nullableChangesOf a b path c hc
        exact ⟨hp, by rw [ht]; intro h2; cases h2⟩
      · obtain ⟨ht, hp⟩ := mem_formatChangesOf a b path c hc
        exact ⟨hp, by rw [ht]; intro h2; cases h2⟩
    · rcases List.mem_cons.mp hc with rfl | hc
      · exact ⟨rfl, fun _ => rfl⟩
      · obtain ⟨ht, hp⟩ := mem_homogeneityChangesOf a b path c hc
        exact ⟨hp, by rw [ht]; intro h2; cases h2⟩
  refine ⟨⟨?_, hmem, ?_⟩, ?_⟩
  · rw [hd]
    rw [List.countP_append, List.countP_append, List.countP_cons]
    have c1 : (nullableChangesOf a b path).countP
        (fun c => c.type = .array_items_changed) = 0 :=
      List.countP_eq_zero.mpr (fun c hcm => by
        obtain ⟨ht, -⟩ := mem_nullableChangesOf a b path c hcm
        simp [ht])
    have c2 : (formatChangesOf a b path).countP
        (fun c => c.type = .array_items_changed) = 0 :=
      List.countP_eq_zero.mpr (fun c hcm => by
        obtain ⟨ht, -⟩ := mem_formatChangesOf a b path c hcm
        simp [ht])
    have c3 : (homogeneityChangesOf a b path).countP
        (fun c => c.type = .array_items_changed) = 0 :=
      List.countP_eq_zero.mpr (fun c hcm => by
        obtain ⟨ht, -⟩ := mem_homogeneityChangesOf a b path c hcm
        simp [ht])
    rw [c1, c2, c3]
    simp [change]
  · intro c hcitem hcres
    obtain ⟨s1, hs1⟩ := diff_path_extends bi ai (itemsPath path) c hcitem
    have hp := (hmem c hcres).1
    rw [hs1] at hp
    exact rootLabel_ne_itemsPath_ext path s1 hp.symm
  · rw [infer_tagsStr, infer_tagsInt, diff_tags_eval]
    rfl


/-- C5 witness: the concrete string-array versus integer-array nodes. -/
theorem C5_array_items_collapse_witness :
    (diffSchemas tagsArrStr tagsArrInt "tags").countP
      (fun c => c.type = .array_items_changed) = 1 :=
  (C5_array_items_collapse tagsArrStr tagsArrInt strNode2 intNode2 "tags" rfl rfl rfl rfl
    (by rw [show itemsPath "tags" = "tags[]" from rfl, diff_items_eval]; rfl)).1.1

/-! ### Claim C6: rename matching exclusivity -/


theorem findRenameMatch_some (rKey : String) (rSchema : SchemaNode)
    (matched : List String) :
    ∀ (added : List (String × SchemaNode)) (aKey : String),
    findRenameMatch rKey rSchema matched added = some aKey →
    aKey ∉ matched ∧ aKey ∈ keysOf added := by
  intro added
  induction added with
  | nil => intro aKey h; rw [findRenameMatch] at h; cases h
  | cons hd rest ih =>
    intro aKey h
    obtain ⟨k0, s0⟩ := hd
    rw [findRenameMatch] at h
    split at h
    · obtain ⟨h1, h2⟩ := ih aKey h
      exact ⟨h1, List.mem_cons_of_mem _ h2⟩
    · split at h
      · rename_i hmt hsim
        obtain rfl : k0 = aKey := Option.some.inj h
        refine ⟨?_, by simp [keysOf]⟩
        intro hmem
        exact hmt (contains_of_mem _ _ hmem)
      · obtain ⟨h1, h2⟩ := ih aKey h
        exact ⟨h1, List.mem_cons_of_mem _ h2⟩

theorem detectRenamesGo_afters (added : List (String × SchemaNode)) (basePath : String) :
    ∀ (removed : List (String × SchemaNode)) (matched : List String),
    ((detectRenamesGo added basePath removed matched).filterMap (fun r => r.after)).Nodup
    ∧ ∀ x ∈ (detectRenamesGo added basePath removed matched).filterMap (fun r => r.after),
        x ∉ matched := by
  intro removed
  induction removed with
  | nil =>
    intro matched
    rw [detectRenamesGo]
    exact ⟨List.nodup_nil, by simp⟩
  | cons hd rest ih =>
    intro matched
    obtain ⟨rKey, rSchema⟩ := hd
    rw [detectRenamesGo]
    rcases hfm : findRenameMatch rKey rSchema matched added with _ | aKey
    · exact ih matched
    · obtain ⟨hnm, -⟩ := findRenameMatch_some rKey rSchema matched added aKey hfm
      obtain ⟨ihn, ihm⟩ := ih (matched ++ [aKey])
      rw [List.filterMap_cons]
      constructor
      · simp only [change]
        refine List.Nodup.cons ?_ ihn
        intro hmem
        exact (ihm aKey hmem) (by simp)
      · intro x hx
        simp only [change] at hx
        rcases List.mem_cons.mp hx with rfl | hx
        · exact hnm
        · intro hxm
          exact (ihm x hx) (List.mem_append_left _ hxm)

theorem detectRenamesGo_befores (added : List (String × SchemaNode)) (basePath : String) :
    ∀ (removed : List (String × SchemaNode)) (matched : List String),
    ((detectRenamesGo added basePath removed matched).filterMap (fun r => r.before)).Sublist
      (keysOf removed) := by
  intro removed
  induction removed with
  | nil => intro matched; rw [detectRenamesGo]; simp
  | cons hd rest ih =>
    intro matched
    obtain ⟨rKey, rSchema⟩ := hd
    rw [detectRenamesGo]
    rcases hfm : findRenameMatch rKey rSchema matched added with _ | aKey
    · exact (ih matched).trans (List.sublist_cons_self _ _)
    · rw [List.filterMap_cons]
      simp only [change]
      exact List.Sublist.cons₂ _ (ih (matched ++ [aKey]))

theorem joinPath_right_inj (path k1 k2 : String) (h : joinPath path k1 = joinPath path k2) :
    k1 = k2 := by
  by_cases hp : path = ""
  · rw [joinPath, if_pos hp, joinPath, if_pos hp] at h
    exact h
  · rw [joinPath, if_neg hp, joinPath, if_neg hp] at h
    have h2 := congrArg String.data h
    rw [String.data_append, String.data_append, String.data_append,
      String.data_append] at h2
    exact String.ext (List.append_cancel_left h2)

/-- C6: in the greedy rename matching each removed name and each added
name is claimed by at most one `field_renamed` pair, and a claimed name is
never also emitted as a `field_removed` or `field_added` change of that
object level; in particular `diff(infer({role}), infer({roles}))` is exactly
one `field_renamed` with before `role` and after `roles`. -/
theorem C6_rename_exclusivity (removed added : List (String × SchemaNode))
    (basePath : String) (hnr : (keysOf removed).Nodup) :
    (((detectRenames removed added basePath).filterMap (fun r => r.before)).Nodup
    ∧ ((detectRenames removed added basePath).filterMap (fun r => r.after)).Nodup
    ∧ (∀ n ∈ (detectRenames removed added basePath).filterMap (fun r => r.before),
        ∀ (path : String) (c : DriftChange), c ∈ removalChangesOf removed
          ((detectRenames removed added basePath).filterMap (fun r => r.before)) path →
          c.path ≠ joinPath path n)
    ∧ (∀ n ∈ (detectRenames removed added basePath).filterMap (fun r => r.after),
        ∀ (path : String) (c : DriftChange), c ∈ additionChangesOf added
          ((detectRenames removed added basePath).filterMap (fun r => r.after)) path →
          c.path ≠ joinPath path n))
    ∧ (diffSchemas (inferSchema (Json.obj [("role", Json.str "admin")]))
        (inferSchema (Json.obj [("roles", Json.str "admin")])) "").map
          (fun c => (c.type, c.before, c.after))
      = [(.field_renamed, some "role", some "roles")] := by
  refine ⟨⟨?_, ?_, ?_, ?_⟩, ?_⟩
  · exact List.Nodup.sublist (detectRenamesGo_befores added basePath removed []) hnr
  · exact (detectRenamesGo_afters added basePath removed []).1
  · intro n hn path c hc hpath
    obtain ⟨kv, -, hnc, rfl⟩ := mem_removalChangesOf _ _ path c hc
    obtain rfl : kv.1 = n := joinPath_right_inj path kv.1 n hpath
    rw [contains_of_mem _ _ hn] at hnc
    cases hnc
  · intro n hn path c hc hpath
    obtain ⟨kv, -, hnc, rfl⟩ := mem_additionChangesOf _ _ path c hc
    obtain rfl : kv.1 = n := joinPath_right_inj path kv.1 n hpath
    rw [contains_of_mem _ _ hn] at hnc
    cases hnc
  · rw [infer_role_eval, infer_roles_eval, diff_rename_eval]
    rfl


/-- C6 witness: the concrete role-to-roles rename input. -/
theorem C6_rename_exclusivity_witness :
    ((detectRenames [("role", roleProp)] [("roles", roleProp)] "").filterMap
      (fun r => r.before)).Nodup :=
  (C6_rename_exclusivity [("role", roleProp)] [("roles", roleProp)] "" (by decide)).1.1


/-! ### C2: commutativity of the merge engine -/

/-- `dedupFirstAux` never emits a duplicate. -/
theorem nodup_dedupFirstAux {α : Type} [DecidableEq α] (l : List α) :
    ∀ seen : List α, (dedupFirstAux seen l).Nodup := by
  induction l with
  | nil => intro seen; simp [dedupFirstAux]
  | cons hd tl ih =>
    intro seen
    by_cases hm : hd ∈ seen
    · rw [dedupFirstAux, if_pos hm]
      exact ih seen
    · rw [dedupFirstAux, if_neg hm]
      refine List.nodup_cons.mpr ⟨?_, ih (hd :: seen)⟩
      intro hc
      have := (mem_dedupFirstAux tl hd (hd :: seen)).mp hc
      exact this.2 (List.mem_cons_self hd _)

/-- `dedupFirst` yields a duplicate-free list. -/
theorem nodup_dedupFirst {α : Type} [DecidableEq α] (l : List α) :
    (dedupFirst l).Nodup := nodup_dedupFirstAux l []

/-- On a map with distinct keys, `lookupFirst` finds every binding. -/
theorem lookupFirst_nodup_mem {β : Type} (ps : List (String × β))
    (hnd : (keysOf ps).Nodup) (k : String) (v : β) (hm : (k, v) ∈ ps) :
    lookupFirst ps k = some v := by
  induction ps with
  | nil => simp at hm
  | cons hd tl ih =>
    obtain ⟨k0, v0⟩ := hd
    simp only [keysOf, List.map_cons, List.nodup_cons] at hnd
    rcases List.mem_cons.mp hm with hme | hme
    · rw [Prod.mk.injEq] at hme
      rw [lookupFirst, if_pos hme.1.symm, hme.2]
    · have hk0 : k0 ≠ k := by
        intro he
        subst he
        exact hnd.1 (List.mem_map_of_mem Prod.fst hme)
      rw [lookupFirst, if_neg hk0]
      exact ih hnd.2 hme

/-- Keys of a keyed map built by pairing each key with a computed value. -/
theorem keysOf_map_pair {β : Type} (l : List String) (g : String → β) :
    keysOf (l.map (fun k => (k, g k))) = l := by
  induction l with
  | nil => rfl
  | cons hd tl ih =>
    simp only [keysOf, List.map_map, List.map_cons] at ih ⊢
    simp_all

/-- Lookup in a keyed map built from a duplicate-free key list. -/
theorem lookup_map_pair {β : Type} (l : List String) (g : String → β)
    (k : String) (hnd : l.Nodup) (hm : k ∈ l) :
    lookupFirst (l.map (fun k => (k, g k))) k = some (g k) := by
  apply lookupFirst_nodup_mem
  · rw [keysOf_map_pair]
    exact hnd
  · exact List.mem_map_of_mem _ hm

/-- Structurally equal nodes have the same kind. -/
theorem structEq_type (a b : SchemaNode) (h : structEq a b = true) :
    a.type = b.type := by
  rw [structEq] at h
  simp only [Bool.and_eq_true, beq_iff_eq] at h
  exact h.1.1.1.1.1.1.1.1.1.1

/-- Sufficient condition for the per-key half of `structEq` on maps. -/
theorem structEqProps_of_forall (l pb : List (String × SchemaNode))
    (h : ∀ p ∈ l, ∃ w, lookupFirst pb p.1 = some w ∧ structEq p.2 w = true) :
    structEqProps l pb = true := by
  induction l with
  | nil => rw [structEqProps]
  | cons hd tl ih =>
    obtain ⟨k, v⟩ := hd
    obtain ⟨w, hw1, hw2⟩ := h (k, v) (List.mem_cons_self _ _)
    rw [structEqProps, Bool.and_eq_true]
    constructor
    · split
      · rename_i w0 heq
        rw [hw1] at heq
        exact (Option.some.inj heq) ▸ hw2
      · rename_i heq
        rw [hw1] at heq
        simp at heq
    · exact ih (fun p hp => h p (List.mem_cons_of_mem _ hp))

/-- A structurally equal member witnesses `structEqAny`. -/
theorem structEqAny_of_mem (x y : SchemaNode) (l : List SchemaNode)
    (hm : y ∈ l) (h : structEq x y = true) : structEqAny x l = true := by
  induction l with
  | nil => simp at hm
  | cons hd tl ih =>
    rw [structEqAny, Bool.or_eq_true]
    rcases List.mem_cons.mp hm with hme | hme
    · exact Or.inl (hme ▸ h)
    · exact Or.inr (ih hme)

/-- Sufficient condition for `structEqMemAll`. -/
theorem structEqMemAll_of_forall (la lb : List SchemaNode)
    (h : ∀ x ∈ la, structEqAny x lb = true) : structEqMemAll la lb = true := by
  induction la with
  | nil => rw [structEqMemAll]
  | cons hd tl ih =>
    rw [structEqMemAll, Bool.and_eq_true]
    exact ⟨h hd (List.mem_cons_self _ _),
      ih (fun x hx => h x (List.mem_cons_of_mem _ hx))⟩

/-- Setting nullable and sample count does not touch the parts `wfNode`
inspects. -/
theorem wfNode_setNullable_setSampleCount (n : SchemaNode) (x : Bool)
    (s : Option Nat) : wfNode ((n.setNullable x).setSampleCount s) = wfNode n := by
  cases n with
  | mk t nb f pp r i hh o sc =>
    rcases i with _ | ii <;> rcases o with _ | oo <;>
      rw [SchemaNode.setNullable, SchemaNode.setSampleCount, wfNode, wfNode,
        nodeAll, nodeAll] <;>
      simp [jsProps]



/-- `structEq` on two leaf-shaped node literals (no properties, required,
items or union members) with identical fields. -/
theorem structEq_leaf (t : SchemaType) (nb : Bool) (f : Option (Option FormatHint))
    (s : Option Nat) :
    structEq (.mk t nb f none none none none none s)
      (.mk t nb f none none none none none s) = true := by
  rw [structEq]
  simp [jsProps, jsRequired, structEqProps, keysOf]

/-- `structEq` on two object-node literals, reduced to its property and
required-set obligations. -/
theorem structEq_objNode (nb : Bool) (P1 P2 : List (String × SchemaNode))
    (R1 R2 : List String) (s : Option Nat)
    (hp12 : structEqProps P1 P2 = true)
    (hk : (keysOf P2).all (fun k => containsKey P1 k) = true)
    (hr12 : R1.all (fun k => R2.contains k) = true)
    (hr21 : R2.all (fun k => R1.contains k) = true) :
    structEq (.mk .object nb none (some P1) (some R1) none none none s)
      (.mk .object nb none (some P2) (some R2) none none none s) = true := by
  rw [structEq]
  simp only [List.all_eq_true] at hr12 hr21
  simp [jsProps, jsRequired, hp12, hk]
  constructor
  · intro x hx
    simpa using hr12 x hx
  · intro x hx
    simpa using hr21 x hx

/-- `structEq` on two array-node literals, reduced to the item obligation. -/
theorem structEq_arrayNode (nb : Bool) (i1 i2 : SchemaNode) (h1 h2 : Bool)
    (s : Option Nat) (hi : structEq i1 i2 = true) (hh : h1 = h2) :
    structEq (.mk .array nb none none none (some i1) (some h1) none s)
      (.mk .array nb none none none (some i2) (some h2) none s) = true := by
  subst hh
  rw [structEq]
  simp [jsProps, jsRequired, structEqProps, keysOf, hi]

/-- `structEq` is reflexive on well-formed nodes (strong induction kernel). -/
theorem structEq_refl_aux (N : Nat) :
    ∀ a : SchemaNode, sizeOf a ≤ N → wfNode a = true → structEq a a = true := by
  induction N with
  | zero =>
    intro a ha _
    exact absurd ha (by have := one_le_sizeOf_node a; omega)
  | succ n ih =>
    intro a ha hwf
    have hnd : (keysOf (jsProps a)).Nodup := of_decide_eq_true (nodeAll_self _ _ hwf)
    rw [structEq]
    simp only [Bool.and_eq_true, beq_self_eq_true, true_and, and_true]
    refine ⟨⟨⟨⟨⟨?_, ?_⟩, ?_⟩, ?_⟩, ?_⟩, ?_⟩
    · -- structEqProps (jsProps a) (jsProps a)
      apply structEqProps_of_forall
      intro p hp
      obtain ⟨k, v⟩ := p
      refine ⟨v, lookupFirst_nodup_mem _ hnd _ _ hp, ?_⟩
      show structEq v v = true
      apply ih
      · have h1 : sizeOf v < sizeOf (jsProps a) := sizeOf_snd_lt_of_mem (jsProps a) (k, v) hp
        have h2 := sizeOf_jsProps_lt a
        omega
      · exact nodeAll_prop _ a k v hwf hp
    · -- keys containment
      rw [List.all_eq_true]
      intro k hk
      exact containsKey_of_mem_keys _ _ hk
    · rw [List.all_eq_true]
      intro k hk
      exact contains_of_mem _ _ hk
    · rw [List.all_eq_true]
      intro k hk
      exact contains_of_mem _ _ hk
    · -- items
      split
      · rfl
      · rename_i x y hx hy
        rw [hx] at hy
        rw [Option.some.inj hy]
        apply ih
        · have := sizeOf_items_lt a y (Option.some.inj hy ▸ hx)
          omega
        · exact nodeAll_items _ a y hwf (Option.some.inj hy ▸ hx)
      · rename_i hnone hne
        exfalso
        rcases hx : a.items with _ | x
        · exact hnone hx hx
        · exact hne x x hx hx
    · -- oneOf
      split
      · rfl
      · rename_i la lb hla hlb
        rw [hla] at hlb
        have hlab := Option.some.inj hlb
        subst hlab
        rw [Bool.and_eq_true]
        constructor <;>
          (apply structEqMemAll_of_forall
           intro x hx
           apply structEqAny_of_mem x x _ hx
           apply ih
           · have h1 := sizeOf_oneOfList_lt a la hla
             have h2 := List.sizeOf_lt_of_mem hx
             omega
           · exact nodeAll_oneOf _ a la x hwf hla hx)
      · rename_i hnone hne
        exfalso
        rcases hx : a.oneOf with _ | l
        · exact hnone hx hx
        · exact hne l l hx hx



/-- `structEq` is reflexive on well-formed nodes. -/
theorem structEq_refl (a : SchemaNode) (h : wfNode a = true) :
    structEq a a = true := structEq_refl_aux (sizeOf a) a le_rfl h

/-- Transport `nodeAll` to a property value read with `jsGet`. -/
theorem nodeAll_jsGet (p : SchemaNode → Bool) (n : SchemaNode) (k : String)
    (h : nodeAll p n = true) (hc : containsKey (jsProps n) k = true) :
    nodeAll p (jsGet (jsProps n) k) = true := by
  obtain ⟨v, hv⟩ := containsKey_lookup (jsProps n) k hc
  rw [jsGet, hv, Option.getD_some]
  exact nodeAll_lookup p n k v h hv

/-- A tree with no unknown node has a non-unknown root kind. -/
theorem type_ne_unknown (n : SchemaNode) (h : noUnknown n = true) :
    n.type ≠ SchemaType.unknown := by
  have := nodeAll_self _ n h
  simpa using this

/-- The format-hint merge is symmetric in its two inputs. -/
theorem fmtMerge_comm (x y : Option (Option FormatHint)) :
    (if x = y then x else some none) = (if y = x then y else some none) := by
  by_cases h : x = y
  · simp [h]
  · simp [h, Ne.symm h]

/-- Case equation of `mergeSchemas` for two array nodes with item schemas. -/
theorem merge_array_ss (a b : SchemaNode) (ha : a.type = SchemaType.array)
    (hb : b.type = SchemaType.array) (ia ib : SchemaNode)
    (hia : a.items = some ia) (hib : b.items = some ib) :
    mergeSchemas a b = .mk .array (a.nullable || b.nullable) none none none
      (some (mergeSchemas ia ib))
      (some ((a.homogeneous.getD true) && (b.homogeneous.getD true)
        && decide (¬(mergeSchemas ia ib).type = SchemaType.unknown)))
      none (some (jsOr1 a.sampleCount + jsOr1 b.sampleCount)) := by
  have ha0 : a.type ≠ SchemaType.null := by rw [ha]; decide
  have hb0 : b.type ≠ SchemaType.null := by rw [hb]; decide
  have ha1 : a.type ≠ SchemaType.unknown := by rw [ha]; decide
  have hb1 : b.type ≠ SchemaType.unknown := by rw [hb]; decide
  rw [mergeSchemas, if_neg (fun hc => ha0 hc.1), if_neg ha0, if_neg hb0,
    if_neg ha1, if_neg hb1, if_neg (fun hc => hc (ha.trans hb.symm)),
    ha, hia, hib]



/-- Case equation of `mergeSchemas` for two array nodes, only the first with
an item schema. -/
theorem merge_array_sn (a b : SchemaNode) (ha : a.type = SchemaType.array)
    (hb : b.type = SchemaType.array) (ia : SchemaNode)
    (hia : a.items = some ia) (hib : b.items = none) :
    mergeSchemas a b = .mk .array (a.nullable || b.nullable) none none none
      (some ia)
      (some ((a.homogeneous.getD true) && (b.homogeneous.getD true)
        && decide (¬ia.type = SchemaType.unknown)))
      none (some (jsOr1 a.sampleCount + jsOr1 b.sampleCount)) := by
  have ha0 : a.type ≠ SchemaType.null := by rw [ha]; decide
  have hb0 : b.type ≠ SchemaType.null := by rw [hb]; decide
  have ha1 : a.type ≠ SchemaType.unknown := by rw [ha]; decide
  have hb1 : b.type ≠ SchemaType.unknown := by rw [hb]; decide
  rw [mergeSchemas, if_neg (fun hc => ha0 hc.1), if_neg ha0, if_neg hb0,
    if_neg ha1, if_neg hb1, if_neg (fun hc => hc (ha.trans hb.symm)),
    ha, hia, hib]

/-- Case equation of `mergeSchemas` for two array nodes, only the second with
an item schema. -/
theorem merge_array_ns (a b : SchemaNode) (ha : a.type = SchemaType.array)
    (hb : b.type = SchemaType.array) (ib : SchemaNode)
    (hia : a.items = none) (hib : b.items = some ib) :
    mergeSchemas a b = .mk .array (a.nullable || b.nullable) none none none
      (some ib)
      (some ((a.homogeneous.getD true) && (b.homogeneous.getD true)
        && decide (¬ib.type = SchemaType.unknown)))
      none (some (jsOr1 a.sampleCount + jsOr1 b.sampleCount)) := by
  have ha0 : a.type ≠ SchemaType.null := by rw [ha]; decide
  have hb0 : b.type ≠ SchemaType.null := by rw [hb]; decide
  have ha1 : a.type ≠ SchemaType.unknown := by rw [ha]; decide
  have hb1 : b.type ≠ SchemaType.unknown := by rw [hb]; decide
  rw [mergeSchemas, if_neg (fun hc => ha0 hc.1), if_neg ha0, if_neg hb0,
    if_neg ha1, if_neg hb1, if_neg (fun hc => hc (ha.trans hb.symm)),
    ha, hia, hib]

/-- Case equation of `mergeSchemas` for two array nodes without item
schemas. -/
theorem merge_array_nn (a b : SchemaNode) (ha : a.type = SchemaType.array)
    (hb : b.type = SchemaType.array)
    (hia : a.items = none) (hib : b.items = none) :
    mergeSchemas a b = .mk .array (a.nullable || b.nullable) none none none
      (some unknownNode)
      (some ((a.homogeneous.getD true) && (b.homogeneous.getD true)
        && decide (¬unknownNode.type = SchemaType.unknown)))
      none (some (jsOr1 a.sampleCount + jsOr1 b.sampleCount)) := by
  have ha0 : a.type ≠ SchemaType.null := by rw [ha]; decide
  have hb0 : b.type ≠ SchemaType.null := by rw [hb]; decide
  have ha1 : a.type ≠ SchemaType.unknown := by rw [ha]; decide
  have hb1 : b.type ≠ SchemaType.unknown := by rw [hb]; decide
  rw [mergeSchemas, if_neg (fun hc => ha0 hc.1), if_neg ha0, if_neg hb0,
    if_neg ha1, if_neg hb1, if_neg (fun hc => hc (ha.trans hb.symm)),
    ha, hia, hib]

/-- Case equation of `mergeSchemas` for two object nodes. -/
theorem merge_object_eq (a b : SchemaNode) (ha : a.type = SchemaType.object)
    (hb : b.type = SchemaType.object) :
    mergeSchemas a b
      = mergeObjectSchemas a b (jsOr1 a.sampleCount + jsOr1 b.sampleCount) := by
  have ha0 : a.type ≠ SchemaType.null := by rw [ha]; decide
  have hb0 : b.type ≠ SchemaType.null := by rw [hb]; decide
  have ha1 : a.type ≠ SchemaType.unknown := by rw [ha]; decide
  have hb1 : b.type ≠ SchemaType.unknown := by rw [hb]; decide
  rw [mergeSchemas, if_neg (fun hc => ha0 hc.1), if_neg ha0, if_neg hb0,
    if_neg ha1, if_neg hb1, if_neg (fun hc => hc (ha.trans hb.symm)), ha]

/-- Case equation of `mergeSchemas` for two null nodes. -/
theorem merge_null_null (a b : SchemaNode) (ha : a.type = SchemaType.null)
    (hb : b.type = SchemaType.null) :
    mergeSchemas a b = .mk .null true none none none none none none
      (some (jsOr1 a.sampleCount + jsOr1 b.sampleCount)) := by
  rw [mergeSchemas, if_pos ⟨ha, hb⟩]

/-- Case equation of `mergeSchemas`: a null first argument spreads the
second argument, forcing nullable. -/
theorem merge_null_left (a b : SchemaNode) (ha : a.type = SchemaType.null)
    (hb : b.type ≠ SchemaType.null) :
    mergeSchemas a b = (b.setNullable true).setSampleCount
      (some (jsOr1 a.sampleCount + jsOr1 b.sampleCount)) := by
  rw [mergeSchemas, if_neg (fun hc => hb hc.2), if_pos ha]

/-- Case equation of `mergeSchemas`: a null second argument spreads the
first argument, forcing nullable. -/
theorem merge_null_right (a b : SchemaNode) (ha : a.type ≠ SchemaType.null)
    (hb : b.type = SchemaType.null) :
    mergeSchemas a b = (a.setNullable true).setSampleCount
      (some (jsOr1 a.sampleCount + jsOr1 b.sampleCount)) := by
  rw [mergeSchemas, if_neg (fun hc => ha hc.1), if_neg ha, if_pos hb]

/-- Case equation of `mergeSchemas` for nodes of two different kinds, none
null or unknown: the two-member union. -/
theorem merge_diff (a b : SchemaNode) (ha0 : a.type ≠ SchemaType.null)
    (hb0 : b.type ≠ SchemaType.null) (ha1 : a.type ≠ SchemaType.unknown)
    (hb1 : b.type ≠ SchemaType.unknown) (hne : a.type ≠ b.type) :
    mergeSchemas a b
      = unionOfPair a b (jsOr1 a.sampleCount + jsOr1 b.sampleCount) := by
  rw [mergeSchemas, if_neg (fun hc => ha0 hc.1), if_neg ha0, if_neg hb0,
    if_neg ha1, if_neg hb1, if_pos hne]



/-- Commutativity of `mergeSchemas` up to structural equality, on
well-formed unknown-free trees (strong induction kernel). -/
theorem merge_comm_aux (N : Nat) :
    ∀ a b : SchemaNode, sizeOf a + sizeOf b ≤ N →
      wfNode a = true → wfNode b = true →
      noUnknown a = true → noUnknown b = true →
      structEq (mergeSchemas a b) (mergeSchemas b a) = true := by
  induction N with
  | zero =>
    intro a b hab _ _ _ _
    exact absurd hab (by
      have h1 := one_le_sizeOf_node a
      have h2 := one_le_sizeOf_node b
      omega)
  | succ n ih =>
    intro a b hab hwa hwb hua hub
    have hau : a.type ≠ SchemaType.unknown := type_ne_unknown a hua
    have hbu : b.type ≠ SchemaType.unknown := type_ne_unknown b hub
    by_cases ha0 : a.type = SchemaType.null
    · by_cases hb0 : b.type = SchemaType.null
      · rw [merge_null_null a b ha0 hb0, merge_null_null b a hb0 ha0,
          Nat.add_comm (jsOr1 a.sampleCount)]
        exact structEq_leaf _ _ _ _
      · rw [merge_null_left a b ha0 hb0, merge_null_right b a hb0 ha0,
          Nat.add_comm (jsOr1 a.sampleCount)]
        apply structEq_refl
        rw [wfNode_setNullable_setSampleCount]
        exact hwb
    · by_cases hb0 : b.type = SchemaType.null
      · rw [merge_null_right a b ha0 hb0, merge_null_left b a hb0 ha0,
          Nat.add_comm (jsOr1 a.sampleCount)]
        apply structEq_refl
        rw [wfNode_setNullable_setSampleCount]
        exact hwa
      · by_cases htab : a.type = b.type
        · -- equal kinds
          rcases hta : a.type with _ | _ | _ | _ | _ | _ | _
          · have htb : b.type = SchemaType.string := htab.symm.trans hta
            rw [merge_prim SchemaType.string (Or.inl rfl) a b hta htb,
              merge_prim SchemaType.string (Or.inl rfl) b a htb hta,
              Bool.or_comm a.nullable, fmtMerge_comm,
              Nat.add_comm (jsOr1 a.sampleCount)]
            exact structEq_leaf _ _ _ _
          · have htb : b.type = SchemaType.number := htab.symm.trans hta
            rw [merge_prim SchemaType.number (Or.inr (Or.inl rfl)) a b hta htb,
              merge_prim SchemaType.number (Or.inr (Or.inl rfl)) b a htb hta,
              Bool.or_comm a.nullable, fmtMerge_comm,
              Nat.add_comm (jsOr1 a.sampleCount)]
            exact structEq_leaf _ _ _ _
          · have htb : b.type = SchemaType.boolean := htab.symm.trans hta
            rw [merge_prim SchemaType.boolean (Or.inr (Or.inr rfl)) a b hta htb,
              merge_prim SchemaType.boolean (Or.inr (Or.inr rfl)) b a htb hta,
              Bool.or_comm a.nullable, fmtMerge_comm,
              Nat.add_comm (jsOr1 a.sampleCount)]
            exact structEq_leaf _ _ _ _
          · exact absurd hta ha0
          · -- object
            have htb : b.type = SchemaType.object := htab.symm.trans hta
            rw [merge_object_eq a b hta htb, merge_object_eq b a htb hta,
              Nat.add_comm (jsOr1 a.sampleCount), mergeObjectSchemas,
              mergeObjectSchemas, Bool.or_comm a.nullable]
            apply structEq_objNode
            · apply structEqProps_of_forall
              intro p hp
              rcases List.mem_map.mp hp with ⟨key, hkey, rfl⟩
              refine ⟨_, lookup_map_pair _ _ _ (nodup_dedupFirst _)
                ((mem_dedupFirst _ _).mpr (List.mem_append.mpr
                  (Or.symm (List.mem_append.mp
                    ((mem_dedupFirst _ _).mp hkey))))), ?_⟩
              dsimp only
              by_cases hca : containsKey (jsProps a) key = true
              · by_cases hcb : containsKey (jsProps b) key = true
                · rw [dif_pos ⟨hca, hcb⟩, dif_pos ⟨hcb, hca⟩]
                  apply ih
                  · have h1 := sizeOf_jsGet_lt a key hca
                    have h2 := sizeOf_jsGet_lt b key hcb
                    omega
                  · exact nodeAll_jsGet _ a key hwa hca
                  · exact nodeAll_jsGet _ b key hwb hcb
                  · exact nodeAll_jsGet _ a key hua hca
                  · exact nodeAll_jsGet _ b key hub hcb
                · rw [dif_neg (fun hc => hcb hc.2), if_pos hca,
                    dif_neg (fun hc => hcb hc.1), if_neg hcb]
                  exact structEq_refl _ (nodeAll_jsGet _ a key hwa hca)
              · by_cases hcb : containsKey (jsProps b) key = true
                · rw [dif_neg (fun hc => hca hc.1), if_neg hca,
                    dif_neg (fun hc => hca hc.2), if_pos hcb]
                  exact structEq_refl _ (nodeAll_jsGet _ b key hwb hcb)
                · exfalso
                  rcases List.mem_append.mp ((mem_dedupFirst _ _).mp hkey)
                    with h | h
                  · exact hca (containsKey_of_mem_keys _ _ h)
                  · exact hcb (containsKey_of_mem_keys _ _ h)
            · rw [keysOf_map_pair, List.all_eq_true]
              intro k hk2
              apply containsKey_of_mem_keys
              rw [keysOf_map_pair]
              exact (mem_dedupFirst _ _).mpr (List.mem_append.mpr
                (Or.symm (List.mem_append.mp ((mem_dedupFirst _ _).mp hk2))))
            · rw [List.all_eq_true]
              intro k hk1
              apply contains_of_mem
              rw [List.mem_filter] at hk1 ⊢
              refine ⟨(mem_dedupFirst _ _).mpr (List.mem_append.mpr
                (Or.symm (List.mem_append.mp
                  ((mem_dedupFirst _ _).mp hk1.1)))), ?_⟩
              have hc := hk1.2
              simp only [Bool.and_eq_true] at hc ⊢
              exact ⟨⟨⟨hc.1.1.2, hc.1.1.1⟩, hc.2⟩, hc.1.2⟩
            · rw [List.all_eq_true]
              intro k hk1
              apply contains_of_mem
              rw [List.mem_filter] at hk1 ⊢
              refine ⟨(mem_dedupFirst _ _).mpr (List.mem_append.mpr
                (Or.symm (List.mem_append.mp
                  ((mem_dedupFirst _ _).mp hk1.1)))), ?_⟩
              have hc := hk1.2
              simp only [Bool.and_eq_true] at hc ⊢
              exact ⟨⟨⟨hc.1.1.2, hc.1.1.1⟩, hc.2⟩, hc.1.2⟩
          · -- array
            have htb : b.type = SchemaType.array := htab.symm.trans hta
            rcases hia : a.items with _ | ia <;> rcases hib : b.items with _ | ib
            · rw [merge_array_nn a b hta htb hia hib,
                merge_array_nn b a htb hta hib hia,
                Bool.or_comm a.nullable,
                Bool.and_comm (a.homogeneous.getD true),
                Nat.add_comm (jsOr1 a.sampleCount)]
              exact structEq_arrayNode _ _ _ _ _ _ (structEq_leaf _ _ _ _) rfl
            · rw [merge_array_ns a b hta htb ib hia hib,
                merge_array_sn b a htb hta ib hib hia,
                Bool.or_comm a.nullable,
                Bool.and_comm (a.homogeneous.getD true),
                Nat.add_comm (jsOr1 a.sampleCount)]
              exact structEq_arrayNode _ _ _ _ _ _
                (structEq_refl ib (nodeAll_items _ b ib hwb hib)) rfl
            · rw [merge_array_sn a b hta htb ia hia hib,
                merge_array_ns b a htb hta ia hib hia,
                Bool.or_comm a.nullable,
                Bool.and_comm (a.homogeneous.getD true),
                Nat.add_comm (jsOr1 a.sampleCount)]
              exact structEq_arrayNode _ _ _ _ _ _
                (structEq_refl ia (nodeAll_items _ a ia hwa hia)) rfl
            · rw [merge_array_ss a b hta htb ia ib hia hib,
                merge_array_ss b a htb hta ib ia hib hia,
                Bool.or_comm a.nullable,
                Bool.and_comm (a.homogeneous.getD true),
                Nat.add_comm (jsOr1 a.sampleCount)]
              have hitems : structEq (mergeSchemas ia ib) (mergeSchemas ib ia)
                  = true := by
                apply ih
                · have h1 := sizeOf_items_lt a ia hia
                  have h2 := sizeOf_items_lt b ib hib
                  omega
                · exact nodeAll_items _ a ia hwa hia
                · exact nodeAll_items _ b ib hwb hib
                · exact nodeAll_items _ a ia hua hia
                · exact nodeAll_items _ b ib hub hib
              apply structEq_arrayNode _ _ _ _ _ _ hitems
              rw [structEq_type _ _ hitems]
          · exact absurd hta hau
        · -- different kinds
          rw [merge_diff a b ha0 hb0 hau hbu htab,
            merge_diff b a hb0 ha0 hbu hau (Ne.symm htab),
            unionOfPair, unionOfPair, Nat.add_comm (jsOr1 a.sampleCount)]
          have hra := structEq_refl a hwa
          have hrb := structEq_refl b hwb
          rw [structEq]
          simp [jsProps, jsRequired, structEqProps, keysOf, structEqMemAll,
            structEqAny, hra, hrb]



/-- The schema the inferrer assigns the JS `undefined` sentinel. -/
def unknownPlain : SchemaNode :=
  .mk .unknown false none none none none none none (some 1)

/-- The nullable unknown node `merge(infer(null), infer(undefined))`
produces. -/
def unknownNullable : SchemaNode :=
  .mk .unknown true none none none none none none (some 2)

/-- C2 counterexample: merge is not commutative on all nodes the engine
produces.  The inferrer maps the `undefined` sentinel to a plain unknown
node, and `merge(infer(null), infer(undefined))` to a nullable unknown
node; rule 3 of `merge` then adopts the second argument wholesale, so
swapping the arguments flips the nullable flag (and the sample count) of
the result, violating structural equality. -/
theorem C2_counterexample :
    inferSchema Json.undef = unknownPlain
    ∧ mergeSchemas (inferSchema Json.null) (inferSchema Json.undef)
        = unknownNullable
    ∧ (mergeSchemas unknownPlain unknownNullable).nullable = true
    ∧ (mergeSchemas unknownNullable unknownPlain).nullable = false := by
  refine ⟨?_, ?_, ?_, ?_⟩
  · simp [inferSchema, unknownPlain]
  · simp [inferSchema, mergeSchemas, unknownNullable, jsOr1,
      SchemaNode.setNullable, SchemaNode.setSampleCount]
  · simp [mergeSchemas, unknownPlain, unknownNullable, jsOr1,
      SchemaNode.setSampleCount]
  · simp [mergeSchemas, unknownPlain, unknownNullable, jsOr1,
      SchemaNode.setSampleCount]

/-- C2 (amended): `merge` is commutative up to structural equality on
well-formed trees (distinct property keys at every object) in which no
node has kind `unknown`: `merge(a,b)` and `merge(b,a)` agree on kind,
nullable, format hint, sample count, properties ignoring key order
(recursively), required sets, item schemas, and union members as sets.
The unknown-free restriction is necessary: rule 3 of `merge` adopts the
non-unknown argument asymmetrically (see the counterexample). -/
theorem C2_merge_comm_structural (a b : SchemaNode)
    (hwa : wfNode a = true) (hwb : wfNode b = true)
    (hua : noUnknown a = true) (hub : noUnknown b = true) :
    structEq (mergeSchemas a b) (mergeSchemas b a) = true :=
  merge_comm_aux (sizeOf a + sizeOf b) a b le_rfl hwa hwb hua hub

/-- C2 witness: the amended commutativity theorem applied to the inferred
plain-string and integer nodes, whose well-formedness and unknown-freeness
evaluate to true. -/
theorem C2_merge_comm_structural_witness :
    wfNode strNode = true ∧ wfNode numNode = true
    ∧ noUnknown strNode = true ∧ noUnknown numNode = true
    ∧ structEq (mergeSchemas strNode numNode) (mergeSchemas numNode strNode)
        = true :=
  ⟨by simp [wfNode, nodeAll, nodeAllProps, strNode, jsProps, keysOf],
   by simp [wfNode, nodeAll, nodeAllProps, numNode, jsProps, keysOf],
   by simp [noUnknown, nodeAll, nodeAllProps, strNode, jsProps, keysOf],
   by simp [noUnknown, nodeAll, nodeAllProps, numNode, jsProps, keysOf],
   C2_merge_comm_structural strNode numNode
     (by simp [wfNode, nodeAll, nodeAllProps, strNode, jsProps, keysOf])
     (by simp [wfNode, nodeAll, nodeAllProps, numNode, jsProps, keysOf])
     (by simp [noUnknown, nodeAll, nodeAllProps, strNode, jsProps, keysOf])
     (by simp [noUnknown, nodeAll, nodeAllProps, numNode, jsProps, keysOf])⟩


/-! ### C9: the required-fields invariant -/

/-- Build `nodeAllProps` from per-value facts. -/
theorem nodeAllProps_of_forall (p : SchemaNode → Bool)
    (l : List (String × SchemaNode))
    (h : ∀ kv ∈ l, nodeAll p kv.2 = true) : nodeAllProps p l = true := by
  induction l with
  | nil => rw [nodeAllProps]
  | cons hd tl ih =>
    obtain ⟨k, v⟩ := hd
    rw [nodeAllProps, Bool.and_eq_true]
    exact ⟨h (k, v) (List.mem_cons_self _ _),
      ih (fun kv hkv => h kv (List.mem_cons_of_mem _ hkv))⟩

/-- Build `nodeAllList` from per-member facts. -/
theorem nodeAllList_of_forall (p : SchemaNode → Bool) (l : List SchemaNode)
    (h : ∀ x ∈ l, nodeAll p x = true) : nodeAllList p l = true := by
  induction l with
  | nil => rw [nodeAllList]
  | cons hd tl ih =>
    rw [nodeAllList, Bool.and_eq_true]
    exact ⟨h hd (List.mem_cons_self _ _),
      ih (fun x hx => h x (List.mem_cons_of_mem _ hx))⟩

/-- Introduction rule for `nodeAll` from its four components. -/
theorem nodeAll_intro (p : SchemaNode → Bool) (n : SchemaNode)
    (hp : p n = true)
    (hprops : nodeAllProps p (jsProps n) = true)
    (hitems : ∀ x, n.items = some x → nodeAll p x = true)
    (honeOf : ∀ l, n.oneOf = some l → nodeAllList p l = true) :
    nodeAll p n = true := by
  rw [nodeAll]
  simp only [Bool.and_eq_true]
  refine ⟨⟨⟨hp, hprops⟩, ?_⟩, ?_⟩
  · split
    · rename_i x heq
      exact hitems x heq
    · rfl
  · split
    · rename_i l heq
      exact honeOf l heq
    · rfl

/-- The required-fields invariant holds on leaf-shaped nodes. -/
theorem reqInvariant_leaf (t : SchemaType) (nb : Bool)
    (f : Option (Option FormatHint)) (s : Option Nat) :
    reqInvariant (.mk t nb f none none none none none s) = true := by
  apply nodeAll_intro
  · rfl
  · rw [show jsProps (SchemaNode.mk t nb f none none none none none s) = []
      from rfl, nodeAllProps]
  · intro x hx
    simp [SchemaNode.items] at hx
  · intro l hl
    simp [SchemaNode.oneOf] at hl

/-- The required-fields invariant ignores nullable and sample count. -/
theorem reqInvariant_setNullable_setSampleCount (n : SchemaNode) (x : Bool)
    (s : Option Nat) :
    reqInvariant ((n.setNullable x).setSampleCount s) = reqInvariant n := by
  cases n with
  | mk t nb f pp r i hh o sc =>
    rcases i with _ | ii <;> rcases o with _ | oo <;>
      rw [SchemaNode.setNullable, SchemaNode.setSampleCount, reqInvariant,
        reqInvariant, nodeAll, nodeAll] <;>
      simp [jsProps, jsRequired]

/-- The required-fields invariant ignores the sample count. -/
theorem reqInvariant_setSampleCount (n : SchemaNode) (s : Option Nat) :
    reqInvariant (n.setSampleCount s) = reqInvariant n := by
  cases n with
  | mk t nb f pp r i hh o sc =>
    rcases i with _ | ii <;> rcases o with _ | oo <;>
      rw [SchemaNode.setSampleCount, reqInvariant, reqInvariant,
        nodeAll, nodeAll] <;>
      simp [jsProps, jsRequired]

/-- The required-fields invariant ignores the nullable flag. -/
theorem reqInvariant_setNullable (n : SchemaNode) (x : Bool) :
    reqInvariant (n.setNullable x) = reqInvariant n := by
  cases n with
  | mk t nb f pp r i hh o sc =>
    rcases i with _ | ii <;> rcases o with _ | oo <;>
      rw [SchemaNode.setNullable, reqInvariant, reqInvariant,
        nodeAll, nodeAll] <;>
      simp [jsProps, jsRequired]

/-- The required-fields invariant holds on an array node whose item schema
satisfies it. -/
theorem reqInvariant_arrayNode (nb : Bool) (i : SchemaNode) (h : Option Bool)
    (s : Option Nat) (hi : reqInvariant i = true) :
    reqInvariant (.mk .array nb none none none (some i) h none s) = true := by
  apply nodeAll_intro
  · rfl
  · rw [show jsProps (SchemaNode.mk .array nb none none none (some i) h none s)
      = [] from rfl, nodeAllProps]
  · intro x hx
    rw [SchemaNode.items_mk] at hx
    rw [Option.some.inj hx] at hi
    exact hi
  · intro l hl
    simp [SchemaNode.oneOf] at hl

/-- The required-fields invariant holds on the two-member union of two
nodes satisfying it. -/
theorem reqInvariant_unionOfPair (a b : SchemaNode) (s : Nat)
    (hra : reqInvariant a = true) (hrb : reqInvariant b = true) :
    reqInvariant (unionOfPair a b s) = true := by
  rw [unionOfPair]
  apply nodeAll_intro
  · rfl
  · rw [show jsProps (SchemaNode.mk .unknown false none none none none none
      (some [a, b]) (some s)) = [] from rfl, nodeAllProps]
  · intro x hx
    simp [SchemaNode.items] at hx
  · intro l hl
    rw [SchemaNode.oneOf_mk] at hl
    rw [← Option.some.inj hl]
    rw [nodeAllList, nodeAllList, nodeAllList]
    simp only [Bool.and_eq_true]
    exact ⟨hra, ⟨hrb, trivial⟩⟩

/-- A binding of `mapSet m k v` is the new binding or one of `m`. -/
theorem mem_mapSet (m : List (String × SchemaNode)) (k : String)
    (v : SchemaNode) (kv : String × SchemaNode) (h : kv ∈ mapSet m k v) :
    kv.2 = v ∨ kv ∈ m := by
  induction m with
  | nil =>
    rw [mapSet] at h
    rcases List.mem_cons.mp h with h | h
    · left
      rw [h]
    · simp at h
  | cons hd tl ih =>
    obtain ⟨k0, v0⟩ := hd
    rw [mapSet] at h
    by_cases hk : k0 = k
    · rw [if_pos hk] at h
      rcases List.mem_cons.mp h with h | h
      · left
        rw [h]
      · right
        exact List.mem_cons_of_mem _ h
    · rw [if_neg hk] at h
      rcases List.mem_cons.mp h with h | h
      · right
        rw [h]
        exact List.mem_cons_self _ _
      · rcases ih h with h | h
        · left
          exact h
        · right
          exact List.mem_cons_of_mem _ h



/-- Case equation of `mergeSchemas`: an unknown first argument adopts the
second argument. -/
theorem merge_unknown_left (a b : SchemaNode) (ha0 : a.type ≠ SchemaType.null)
    (hb0 : b.type ≠ SchemaType.null) (hau : a.type = SchemaType.unknown) :
    mergeSchemas a b = b.setSampleCount
      (some (jsOr1 a.sampleCount + jsOr1 b.sampleCount)) := by
  rw [mergeSchemas, if_neg (fun hc => ha0 hc.1), if_neg ha0, if_neg hb0,
    if_pos hau]

/-- Case equation of `mergeSchemas`: an unknown second argument adopts the
first argument. -/
theorem merge_unknown_right (a b : SchemaNode) (ha0 : a.type ≠ SchemaType.null)
    (hb0 : b.type ≠ SchemaType.null) (hau : a.type ≠ SchemaType.unknown)
    (hbu : b.type = SchemaType.unknown) :
    mergeSchemas a b = a.setSampleCount
      (some (jsOr1 a.sampleCount + jsOr1 b.sampleCount)) := by
  rw [mergeSchemas, if_neg (fun hc => ha0 hc.1), if_neg ha0, if_neg hb0,
    if_neg hau, if_pos hbu]

/-- `mergeSchemas` preserves the required-fields invariant (strong
induction kernel). -/
theorem reqInvariant_merge_aux (N : Nat) :
    ∀ a b : SchemaNode, sizeOf a + sizeOf b ≤ N →
      reqInvariant a = true → reqInvariant b = true →
      reqInvariant (mergeSchemas a b) = true := by
  induction N with
  | zero =>
    intro a b hab _ _
    exact absurd hab (by
      have h1 := one_le_sizeOf_node a
      have h2 := one_le_sizeOf_node b
      omega)
  | succ n ih =>
    intro a b hab hra hrb
    by_cases ha0 : a.type = SchemaType.null
    · by_cases hb0 : b.type = SchemaType.null
      · rw [merge_null_null a b ha0 hb0]
        exact reqInvariant_leaf _ _ _ _
      · rw [merge_null_left a b ha0 hb0,
          reqInvariant_setNullable_setSampleCount]
        exact hrb
    · by_cases hb0 : b.type = SchemaType.null
      · rw [merge_null_right a b ha0 hb0,
          reqInvariant_setNullable_setSampleCount]
        exact hra
      · by_cases hau : a.type = SchemaType.unknown
        · rw [merge_unknown_left a b ha0 hb0 hau, reqInvariant_setSampleCount]
          exact hrb
        · by_cases hbu : b.type = SchemaType.unknown
          · rw [merge_unknown_right a b ha0 hb0 hau hbu,
              reqInvariant_setSampleCount]
            exact hra
          · by_cases htab : a.type = b.type
            · rcases hta : a.type with _ | _ | _ | _ | _ | _ | _
              · rw [merge_prim SchemaType.string (Or.inl rfl) a b hta
                  (htab.symm.trans hta)]
                exact reqInvariant_leaf _ _ _ _
              · rw [merge_prim SchemaType.number (Or.inr (Or.inl rfl)) a b hta
                  (htab.symm.trans hta)]
                exact reqInvariant_leaf _ _ _ _
              · rw [merge_prim SchemaType.boolean (Or.inr (Or.inr rfl)) a b hta
                  (htab.symm.trans hta)]
                exact reqInvariant_leaf _ _ _ _
              · exact absurd hta ha0
              · -- object
                have htb : b.type = SchemaType.object := htab.symm.trans hta
                rw [merge_object_eq a b hta htb, mergeObjectSchemas]
                apply nodeAll_intro
                · -- required ⊆ keys at the root
                  show (jsRequired _).all (fun k => containsKey (jsProps _) k)
                    = true
                  rw [List.all_eq_true]
                  intro k hk
                  apply containsKey_of_mem_keys
                  simp only [jsProps, jsRequired, SchemaNode.properties_mk,
                    SchemaNode.required_mk, Option.getD_some] at hk ⊢
                  rw [keysOf_map_pair]
                  exact (List.mem_filter.mp hk).1
                · apply nodeAllProps_of_forall
                  intro kv hkv
                  rcases List.mem_map.mp hkv with ⟨key, hkey, rfl⟩
                  dsimp only
                  by_cases hca : containsKey (jsProps a) key = true
                  · by_cases hcb : containsKey (jsProps b) key = true
                    · rw [dif_pos ⟨hca, hcb⟩]
                      apply ih
                      · have h1 := sizeOf_jsGet_lt a key hca
                        have h2 := sizeOf_jsGet_lt b key hcb
                        omega
                      · exact nodeAll_jsGet _ a key hra hca
                      · exact nodeAll_jsGet _ b key hrb hcb
                    · rw [dif_neg (fun hc => hcb hc.2), if_pos hca]
                      exact nodeAll_jsGet _ a key hra hca
                  · by_cases hcb : containsKey (jsProps b) key = true
                    · rw [dif_neg (fun hc => hca hc.1), if_neg hca]
                      exact nodeAll_jsGet _ b key hrb hcb
                    · exfalso
                      rcases List.mem_append.mp
                        ((mem_dedupFirst _ _).mp hkey) with h | h
                      · exact hca (containsKey_of_mem_keys _ _ h)
                      · exact hcb (containsKey_of_mem_keys _ _ h)
                · intro x hx
                  rw [SchemaNode.items_mk] at hx
                  simp at hx
                · intro l hl
                  rw [SchemaNode.oneOf_mk] at hl
                  simp at hl
              · -- array
                have htb : b.type = SchemaType.array := htab.symm.trans hta
                rcases hia : a.items with _ | ia <;>
                  rcases hib : b.items with _ | ib
                · rw [merge_array_nn a b hta htb hia hib]
                  exact reqInvariant_arrayNode _ _ _ _
                    (reqInvariant_leaf _ _ _ _)
                · rw [merge_array_ns a b hta htb ib hia hib]
                  exact reqInvariant_arrayNode _ _ _ _
                    (nodeAll_items _ b ib hrb hib)
                · rw [merge_array_sn a b hta htb ia hia hib]
                  exact reqInvariant_arrayNode _ _ _ _
                    (nodeAll_items _ a ia hra hia)
                · rw [merge_array_ss a b hta htb ia ib hia hib]
                  apply reqInvariant_arrayNode
                  apply ih
                  · have h1 := sizeOf_items_lt a ia hia
                    have h2 := sizeOf_items_lt b ib hib
                    omega
                  · exact nodeAll_items _ a ia hra hia
                  · exact nodeAll_items _ b ib hrb hib
              · exact absurd hta hau
            · rw [merge_diff a b ha0 hb0 hau hbu htab]
              exact reqInvariant_unionOfPair a b _ hra hrb

/-- `mergeSchemas` preserves the required-fields invariant. -/
theorem reqInvariant_merge (a b : SchemaNode)
    (hra : reqInvariant a = true) (hrb : reqInvariant b = true) :
    reqInvariant (mergeSchemas a b) = true :=
  reqInvariant_merge_aux (sizeOf a + sizeOf b) a b le_rfl hra hrb



/-- The accumulator of `createUnionSchema`'s fold keeps only values built by
merging members of the input list: all satisfy the required-fields
invariant when the inputs do. -/
theorem reqInvariant_unionFold (schemas : List SchemaNode) :
    ∀ acc : List (String × SchemaNode) × Bool,
      (∀ kv ∈ acc.1, reqInvariant kv.2 = true) →
      (∀ s ∈ schemas, reqInvariant s = true) →
      ∀ kv ∈ (schemas.foldl
        (fun (acc : List (String × SchemaNode) × Bool) schema =>
          if schema.type = SchemaType.null then (acc.1, true)
          else if containsKey acc.1 (typeMapKey schema) then
            (mapSet acc.1 (typeMapKey schema)
              (mergeSchemas (jsGet acc.1 (typeMapKey schema)) schema), acc.2)
          else (acc.1 ++ [(typeMapKey schema, schema)], acc.2)) acc).1,
      reqInvariant kv.2 = true := by
  induction schemas with
  | nil =>
    intro acc hacc _ kv hkv
    exact hacc kv hkv
  | cons hd tl ih =>
    intro acc hacc hs kv hkv
    rw [List.foldl_cons] at hkv
    refine ih _ ?_ (fun s hs2 => hs s (List.mem_cons_of_mem _ hs2)) kv hkv
    intro kv2 hkv2
    by_cases h0 : hd.type = SchemaType.null
    · rw [if_pos h0] at hkv2
      exact hacc kv2 hkv2
    · rw [if_neg h0] at hkv2
      by_cases hc : containsKey acc.1 (typeMapKey hd) = true
      · rw [if_pos hc] at hkv2
        dsimp only at hkv2
        rcases mem_mapSet _ _ _ _ hkv2 with he | hm
        · rw [he]
          obtain ⟨w, hw⟩ := containsKey_lookup acc.1 (typeMapKey hd) hc
          apply reqInvariant_merge
          · rw [jsGet, hw, Option.getD_some]
            exact hacc (typeMapKey hd, w) (lookupFirst_mem _ _ _ hw)
          · exact hs hd (List.mem_cons_self _ _)
        · exact hacc kv2 hm
      · rw [if_neg hc] at hkv2
        dsimp only at hkv2
        rcases List.mem_append.mp hkv2 with hm | hm
        · exact hacc kv2 hm
        · rw [List.mem_singleton.mp hm]
          exact hs hd (List.mem_cons_self _ _)

/-- The node `createUnionSchema` assembles from its fold result satisfies
the required-fields invariant when every grouped value does. -/
theorem reqInvariant_unionNode (fl : List (String × SchemaNode)) (flag : Bool)
    (tot : Nat) (hf : ∀ kv ∈ fl, reqInvariant kv.2 = true) :
    reqInvariant (if (fl.map Prod.snd).length = 1 then
        ((fl.map Prod.snd).headD unknownNode).setNullable flag
      else .mk .unknown flag none none none none none
        (some (fl.map Prod.snd)) (some tot)) = true := by
  split
  · rcases fl with _ | ⟨⟨k, v⟩, rest⟩
    · rename_i hlen
      simp at hlen
    · simp only [List.map_cons, List.headD_cons]
      rw [reqInvariant_setNullable]
      exact hf (k, v) (List.mem_cons_self _ _)
  · apply nodeAll_intro
    · rfl
    · rw [show jsProps (SchemaNode.mk .unknown flag none none none none none
        (some (fl.map Prod.snd)) (some tot)) = [] from rfl, nodeAllProps]
    · intro x hx
      simp [SchemaNode.items] at hx
    · intro l hl
      rw [SchemaNode.oneOf_mk] at hl
      rw [← Option.some.inj hl]
      apply nodeAllList_of_forall
      intro x hx
      rcases List.mem_map.mp hx with ⟨kv, hkv, rfl⟩
      exact hf kv hkv

/-- `createUnionSchema` preserves the required-fields invariant. -/
theorem reqInvariant_createUnion (schemas : List SchemaNode)
    (h : ∀ s ∈ schemas, reqInvariant s = true) :
    reqInvariant (createUnionSchema schemas) = true := by
  have hfold := reqInvariant_unionFold schemas ([], false)
    (by intro kv hkv; simp at hkv) h
  rw [createUnionSchema]
  exact reqInvariant_unionNode _ _ _ hfold

/-- Folding a list of invariant-satisfying schemas with `mergeSchemas`
preserves the required-fields invariant. -/
theorem reqInvariant_foldl_merge (xs : List SchemaNode) :
    ∀ x, reqInvariant x = true → (∀ s ∈ xs, reqInvariant s = true) →
      reqInvariant (xs.foldl mergeSchemas x) = true := by
  induction xs with
  | nil =>
    intro x hx _
    simpa using hx
  | cons hd tl ih =>
    intro x hx hall
    rw [List.foldl_cons]
    exact ih _ (reqInvariant_merge x hd hx (hall hd (List.mem_cons_self _ _)))
      (fun s hs => hall s (List.mem_cons_of_mem _ hs))



/-- Every `Json` value has positive size. -/
theorem one_le_sizeOf_json (v : Json) : 1 ≤ sizeOf v := by
  cases v <;> simp <;> omega

/-- Elements of an array value are smaller than the array. -/
theorem sizeOf_json_mem_arr (l : List Json) (x : Json) (h : x ∈ l) :
    sizeOf x < sizeOf (Json.arr l) := by
  have h1 := List.sizeOf_lt_of_mem h
  simp
  omega

/-- Field values of an object value are smaller than the object. -/
theorem sizeOf_json_mem_obj (fields : List (String × Json)) (p : String × Json)
    (h : p ∈ fields) : sizeOf p.2 < sizeOf (Json.obj fields) := by
  have h1 := List.sizeOf_lt_of_mem h
  obtain ⟨k, v⟩ := p
  simp at h1 ⊢
  omega

/-- Keys of the inferred property map are the object field names in order. -/
theorem keysOf_inferPairs (fields : List (String × Json)) :
    keysOf (inferPairs fields) = fields.map Prod.fst := by
  induction fields with
  | nil =>
    rw [inferPairs]
    rfl
  | cons hd tl ih =>
    obtain ⟨k, v⟩ := hd
    rw [inferPairs]
    simp only [keysOf, List.map_cons] at ih ⊢
    rw [ih]

/-- Membership characterization of `inferPairs`. -/
theorem inferPairs_mem (fields : List (String × Json)) (kv : String × SchemaNode)
    (h : kv ∈ inferPairs fields) :
    ∃ p ∈ fields, kv = (p.1, inferSchema p.2) := by
  induction fields with
  | nil =>
    rw [inferPairs] at h
    simp at h
  | cons hd tl ih =>
    obtain ⟨k, v⟩ := hd
    rw [inferPairs] at h
    rcases List.mem_cons.mp h with h | h
    · exact ⟨(k, v), List.mem_cons_self _ _, h⟩
    · rcases ih h with ⟨p, hp, he⟩
      exact ⟨p, List.mem_cons_of_mem _ hp, he⟩

/-- Membership characterization of `inferList`. -/
theorem inferList_mem (l : List Json) (s : SchemaNode) (h : s ∈ inferList l) :
    ∃ v ∈ l, s = inferSchema v := by
  induction l with
  | nil =>
    rw [inferList] at h
    simp at h
  | cons hd tl ih =>
    rw [inferList] at h
    rcases List.mem_cons.mp h with h | h
    · exact ⟨hd, List.mem_cons_self _ _, h⟩
    · rcases ih h with ⟨v, hv, he⟩
      exact ⟨v, List.mem_cons_of_mem _ hv, he⟩

/-- The item schema `inferArraySchema` builds for a non-empty array
satisfies the invariant when all element schemas do. -/
theorem reqInvariant_inferArray_node (its : List SchemaNode) (hom : Bool) :
    (∀ s ∈ its, reqInvariant s = true) →
    reqInvariant (SchemaNode.mk .array false none none none
      (some (if hom then
          match its with
          | [] => unknownNode
          | x :: xs2 => xs2.foldl mergeSchemas x
        else createUnionSchema its))
      (some hom) none (some 1)) = true := by
  intro hits
  apply reqInvariant_arrayNode
  by_cases hh : hom = true
  · rw [if_pos hh]
    rcases its with _ | ⟨x, xs2⟩
    · exact reqInvariant_leaf _ _ _ _
    · exact reqInvariant_foldl_merge xs2 x (hits x (List.mem_cons_self _ _))
        (fun s hs => hits s (List.mem_cons_of_mem _ hs))
  · rw [if_neg hh]
    exact reqInvariant_createUnion its hits

/-- Every schema the inferrer produces satisfies the required-fields
invariant (strong induction kernel). -/
theorem reqInvariant_infer_aux (N : Nat) :
    ∀ v : Json, sizeOf v ≤ N → reqInvariant (inferSchema v) = true := by
  induction N with
  | zero =>
    intro v hv
    exact absurd hv (by have := one_le_sizeOf_json v; omega)
  | succ n ih =>
    intro v hv
    rcases v with _ | s | isInt | bb | xs | fields | _
    · rw [inferSchema]
      exact reqInvariant_leaf _ _ _ _
    · rw [inferSchema]
      exact reqInvariant_leaf _ _ _ _
    · rw [inferSchema]
      exact reqInvariant_leaf _ _ _ _
    · rw [inferSchema]
      exact reqInvariant_leaf _ _ _ _
    · -- array
      rw [inferSchema]
      show reqInvariant (inferArraySchema xs) = true
      rw [inferArraySchema]
      by_cases hlen : xs.length = 0
      · rw [if_pos hlen]
        exact reqInvariant_arrayNode _ _ _ _ (reqInvariant_leaf _ _ _ _)
      · rw [if_neg hlen]
        have hitems : ∀ s ∈ inferList xs, reqInvariant s = true := by
          intro s hs
          rcases inferList_mem xs s hs with ⟨x2, hx2, rfl⟩
          apply ih
          have := sizeOf_json_mem_arr xs x2 hx2
          omega
        exact reqInvariant_inferArray_node (inferList xs) _ hitems
    · -- object
      rw [inferSchema]
      show reqInvariant (inferObjectSchema fields) = true
      rw [inferObjectSchema]
      apply nodeAll_intro
      · show (jsRequired _).all (fun k => containsKey (jsProps _) k) = true
        rw [List.all_eq_true]
        intro k hk
        apply containsKey_of_mem_keys
        simp only [jsProps, jsRequired, SchemaNode.properties_mk,
          SchemaNode.required_mk, Option.getD_some] at hk ⊢
        rw [keysOf_inferPairs]
        exact hk
      · apply nodeAllProps_of_forall
        intro kv hkv
        simp only [jsProps, SchemaNode.properties_mk, Option.getD_some] at hkv
        rcases inferPairs_mem fields kv hkv with ⟨p, hp, rfl⟩
        apply ih
        have := sizeOf_json_mem_obj fields p hp
        omega
      · intro x hx
        rw [SchemaNode.items_mk] at hx
        simp at hx
      · intro l hl
        rw [SchemaNode.oneOf_mk] at hl
        simp at hl
    · rw [inferSchema]
      exact reqInvariant_leaf _ _ _ _

/-- For a single object sample the inferred required list is exactly the
key list of the inferred properties. -/
theorem infer_obj_required_eq (fields : List (String × Json)) :
    jsRequired (inferSchema (Json.obj fields))
      = keysOf (jsProps (inferSchema (Json.obj fields))) := by
  rw [show inferSchema (Json.obj fields) = inferObjectSchema fields from
    by rw [inferSchema]]
  rw [inferObjectSchema]
  simp only [jsRequired, jsProps, SchemaNode.required_mk,
    SchemaNode.properties_mk, Option.getD_some]
  rw [keysOf_inferPairs]



/-- C9: the required-fields invariant `requiredFields ⊆ keys(properties)`
holds at every node of every schema the inferrer produces; `merge`
preserves it from two inputs satisfying it; and for a single object sample
the inferred required list is exactly the key list of the inferred
properties. -/
theorem C9_required_invariant :
    (∀ v : Json, reqInvariant (inferSchema v) = true)
    ∧ (∀ a b : SchemaNode, reqInvariant a = true → reqInvariant b = true →
        reqInvariant (mergeSchemas a b) = true)
    ∧ (∀ fields : List (String × Json),
        jsRequired (inferSchema (Json.obj fields))
          = keysOf (jsProps (inferSchema (Json.obj fields)))) :=
  ⟨fun v => reqInvariant_infer_aux (sizeOf v) v le_rfl,
   reqInvariant_merge,
   infer_obj_required_eq⟩

/-- C9 witness: the invariant theorem applied to a one-field object sample
and to the merge of the inferred plain-string and integer nodes, with the
input invariants evaluated to true. -/
theorem C9_required_invariant_witness :
    reqInvariant (inferSchema (Json.obj [("id", Json.num true)])) = true
    ∧ reqInvariant strNode = true ∧ reqInvariant numNode = true
    ∧ reqInvariant (mergeSchemas strNode numNode) = true :=
  ⟨C9_required_invariant.1 (Json.obj [("id", Json.num true)]),
   by simp [reqInvariant, nodeAll, nodeAllProps, strNode, jsProps, jsRequired],
   by simp [reqInvariant, nodeAll, nodeAllProps, numNode, jsProps, jsRequired],
   C9_required_invariant.2.1 strNode numNode
     (by simp [reqInvariant, nodeAll, nodeAllProps, strNode, jsProps,
       jsRequired])
     (by simp [reqInvariant, nodeAll, nodeAllProps, numNode, jsProps,
       jsRequired])⟩

end ASD
